import Mathlib

/-!
# Order ingestion service (`main.go`): key-scan validator, cache, handlers

A shallow embedding of the parts of `main.go` that decide how an incoming
order message is validated, stored and cached, and how it is served.

Conventions of the embedding:

* a Go `string` is a Lean `String`; `[]rune(s)` is `s.data`;
* a Go `[]byte` is `Option String`: `none` is the nil slice, `some s` a
  non-nil slice holding the text `s`. Bytes that are not valid UTF-8 are read
  as U+FFFD both by `[]rune` and by the JSON decoder, so for the code embedded
  here such a slice behaves as the text with U+FFFD in their place;
* a Go `map[string]T` is a key-unique association list, and a map variable
  that may be nil is an `Option` of it;
* a Go `error` is `Option Error` (`none` is the nil error);
* a run-time panic is the `Except.error` branch of `Except Panic`;
* the two libraries the code calls are outside the repository:
  `encoding/json` is modelled for the `Order` type after its documentation, and
  the SQL database is a parameter (`SqlDriver`) with two instances, a table that
  accepts each identifier once and a database that cannot be reached.
-/

namespace OrderService

/-! ## Go values -/

/-- A Go `error` value that is not nil, held as its message. -/
abbrev Error := String

/-- Run-time panics that the embedded code can raise. -/
inductive Panic where
  /-- Slice index out of range: `index` was read on a slice of `length` elements. -/
  | indexOutOfRange (index length : Nat)
  /-- Assignment to an entry of a nil map. -/
  | nilMapAssign
  deriving DecidableEq, Repr

/-- Results of fallible code can be compared. -/
instance instDecidableEqExcept {ε α : Type} [DecidableEq ε] [DecidableEq α] :
    DecidableEq (Except ε α)
  | .ok a, .ok b =>
    if h : a = b then isTrue (by rw [h]) else isFalse (fun h' => h (by cases h'; rfl))
  | .error a, .error b =>
    if h : a = b then isTrue (by rw [h]) else isFalse (fun h' => h (by cases h'; rfl))
  | .ok _, .error _ => isFalse (fun h => by cases h)
  | .error _, .ok _ => isFalse (fun h => by cases h)

/-- A Go `[]byte`: `none` is nil, `some s` is a non-nil slice with content `s`. -/
abbrev Bytes := Option String

/-- Conversion `string(b)` of a byte slice; the nil slice gives the empty string. -/
def Bytes.string (b : Bytes) : String := b.getD ""

/-- An initialised Go map with string keys, as an association list with unique keys. -/
abbrev GoMap (ν : Type) := List (String × ν)

/-- Map read `v, ok := m[k]` (`none` stands for `ok = false`). -/
def GoMap.get? {ν : Type} : GoMap ν → String → Option ν
  | [], _ => none
  | (k, v) :: rest, key => if k = key then some v else GoMap.get? rest key

/-- Map write `m[k] = v`: replaces the entry of `k` when present, else adds one. -/
def GoMap.set {ν : Type} : GoMap ν → String → ν → GoMap ν
  | [], key, val => [(key, val)]
  | (k, v) :: rest, key, val =>
    if k = key then (k, val) :: rest else (k, v) :: GoMap.set rest key val

/-! ## Key scan and key counting -/

/-- Source: `countStringsInSlice`. For each `val` of the slice, `result[val] += 1`
on a map that starts empty (a missing key reads as 0). -/
def countStringsInSlice (slice : List String) : GoMap Nat :=
  slice.foldl (fun result val => GoMap.set result val ((GoMap.get? result val).getD 0 + 1)) []

/-- Loop of `getJsonKeysFormString` from index `i` on: `runes` is `runes[i:]`, and
the remaining arguments are the loop variables. The look-ahead `runes[i+1]` is the
head of the tail; when the tail is empty the index `i+1` equals `len(runes)` and
the access panics. -/
def scanKeys : (runes : List Char) → (i : Nat) → (allKeys : List String) → (key : String) →
    (keyStarted : Bool) → Except Panic (List String)
  | [], _, allKeys, _, _ => .ok allKeys
  | r :: rest, i, allKeys, key, keyStarted =>
    if r = '"' then
      if !keyStarted then
        scanKeys rest (i + 1) allKeys key true
      else
        match rest with
        | [] => .error (.indexOutOfRange (i + 1) (i + 1))
        | next :: _ =>
          scanKeys rest (i + 1) (if next = ':' then allKeys ++ [key] else allKeys) "" false
    else
      scanKeys rest (i + 1) allKeys (if keyStarted then key ++ String.singleton r else key)
        keyStarted

/-- Source: `getJsonKeysFormString`. -/
def getJsonKeysFormString (jsonString : String) : Except Panic (List String) :=
  scanKeys jsonString.data 0 [] "" false

/-! ## Order model -/

/-- Source: `type Delivery struct`. -/
structure Delivery where
  Name : String
  Phone : String
  Zip : String
  City : String
  Address : String
  Region : String
  Email : String
  deriving DecidableEq, Repr

/-- Source: `type Payment struct`. -/
structure Payment where
  Transaction : String
  RequestId : String
  Currency : String
  Provider : String
  Amount : Int
  PaymentDt : Int
  Bank : String
  DeliveryCost : Int
  GoodsTotal : Int
  CustomFee : Int
  deriving DecidableEq, Repr

/-- Source: `type Item struct`. -/
structure Item where
  ChrtId : Int
  TrackNumber : String
  Price : Int
  RID : String
  Name : String
  Sale : Int
  Size : String
  TotalPrice : Int
  NmId : Int
  Brand : String
  Status : Int
  deriving DecidableEq, Repr

/-- Source: `type Order struct`. `Items` is a slice, nil (`none`) or not. -/
structure Order where
  OrderUid : String
  TrackNumber : String
  Entry : String
  Delivery : Delivery
  Payment : Payment
  Items : Option (List Item)
  Locale : String
  InternalSignature : String
  CustomerId : String
  DeliveryService : String
  Shardkey : String
  SmId : Int
  DateCreated : String
  OofShard : String
  deriving DecidableEq, Repr

/-- The zero value of `Delivery`. -/
def Delivery.zero : Delivery := ⟨"", "", "", "", "", "", ""⟩

/-- The zero value of `Payment`. -/
def Payment.zero : Payment := ⟨"", "", "", "", 0, 0, "", 0, 0, 0⟩

/-- The zero value of `Item`. -/
def Item.zero : Item := ⟨0, "", 0, "", "", 0, "", 0, 0, "", 0⟩

/-- The zero value of `Order`, as declared by `var newOrder Order`. -/
def Order.zero : Order :=
  ⟨"", "", "", Delivery.zero, Payment.zero, none, "", "", "", "", "", 0, "", ""⟩

/-! ## `encoding/json`: `Marshal` of an `Order`

The standard library is not part of the repository. `jsonMarshal` follows the
package documentation of `encoding/json` for the types at hand: struct fields
in declaration order under their tag names, no white space, strings quoted
with HTML-safe escaping (as Go 1.22 and later write it), integers in decimal, a
nil slice as `null`. -/

/-- The opening brace. -/
def lbrace : String := String.singleton (Char.ofNat 123)

/-- The closing brace. -/
def rbrace : String := String.singleton (Char.ofNat 125)

/-- Lower-case hexadecimal digit of `n < 16`. -/
def hexDigit (n : Nat) : Char := "0123456789abcdef".data.getD n '0'

/-- Encoding of one rune inside a JSON string, as `Marshal` writes it: short
escapes for the quote, the backslash, backspace, form feed, line feed, carriage
return and tab; six-character escapes for the other control characters, for
`<`, `>` and `&`, and for the line and paragraph separators. -/
def escapeRune (c : Char) : String :=
  if c = '"' then "\\\""
  else if c = '\\' then "\\\\"
  else if c = Char.ofNat 8 then "\\b"
  else if c = Char.ofNat 12 then "\\f"
  else if c = '\n' then "\\n"
  else if c = '\r' then "\\r"
  else if c = '\t' then "\\t"
  else if c.toNat < 32 ∨ c = '<' ∨ c = '>' ∨ c = '&' then
    "\\u00" ++ String.mk [hexDigit (c.toNat / 16), hexDigit (c.toNat % 16)]
  else if c.toNat = 8232 then "\\u2028"
  else if c.toNat = 8233 then "\\u2029"
  else String.singleton c

/-- A Go string as a JSON string literal. -/
def marshalString (s : String) : String :=
  "\"" ++ String.join (s.data.map escapeRune) ++ "\""

/-- A Go `int` as a JSON number. -/
def marshalInt (n : Int) : String := toString n

/-- JSON encoding of a `Delivery`. -/
def Delivery.marshal (d : Delivery) : String :=
  lbrace ++ "\"name\":" ++ marshalString d.Name
    ++ ",\"phone\":" ++ marshalString d.Phone
    ++ ",\"zip\":" ++ marshalString d.Zip
    ++ ",\"city\":" ++ marshalString d.City
    ++ ",\"address\":" ++ marshalString d.Address
    ++ ",\"region\":" ++ marshalString d.Region
    ++ ",\"email\":" ++ marshalString d.Email ++ rbrace

/-- JSON encoding of a `Payment`. -/
def Payment.marshal (p : Payment) : String :=
  lbrace ++ "\"transaction\":" ++ marshalString p.Transaction
    ++ ",\"request_id\":" ++ marshalString p.RequestId
    ++ ",\"currency\":" ++ marshalString p.Currency
    ++ ",\"provider\":" ++ marshalString p.Provider
    ++ ",\"amount\":" ++ marshalInt p.Amount
    ++ ",\"payment_dt\":" ++ marshalInt p.PaymentDt
    ++ ",\"bank\":" ++ marshalString p.Bank
    ++ ",\"delivery_cost\":" ++ marshalInt p.DeliveryCost
    ++ ",\"goods_total\":" ++ marshalInt p.GoodsTotal
    ++ ",\"custom_fee\":" ++ marshalInt p.CustomFee ++ rbrace

/-- JSON encoding of an `Item`. -/
def Item.marshal (it : Item) : String :=
  lbrace ++ "\"chrt_id\":" ++ marshalInt it.ChrtId
    ++ ",\"track_number\":" ++ marshalString it.TrackNumber
    ++ ",\"price\":" ++ marshalInt it.Price
    ++ ",\"rid\":" ++ marshalString it.RID
    ++ ",\"name\":" ++ marshalString it.Name
    ++ ",\"sale\":" ++ marshalInt it.Sale
    ++ ",\"size\":" ++ marshalString it.Size
    ++ ",\"total_price\":" ++ marshalInt it.TotalPrice
    ++ ",\"nm_id\":" ++ marshalInt it.NmId
    ++ ",\"brand\":" ++ marshalString it.Brand
    ++ ",\"status\":" ++ marshalInt it.Status ++ rbrace

/-- JSON encoding of the `Items` slice: `null` when nil, else an array. -/
def marshalItems : Option (List Item) → String
  | none => "null"
  | some items => "[" ++ String.intercalate "," (items.map Item.marshal) ++ "]"

/-- Model of `json.Marshal(o)` for `o *Order`. No value of these types is
unsupported by the encoder, so the error result is always nil. -/
def jsonMarshal (o : Order) : Except Error String :=
  .ok (lbrace ++ "\"order_uid\":" ++ marshalString o.OrderUid
    ++ ",\"track_number\":" ++ marshalString o.TrackNumber
    ++ ",\"entry\":" ++ marshalString o.Entry
    ++ ",\"delivery\":" ++ o.Delivery.marshal
    ++ ",\"payment\":" ++ o.Payment.marshal
    ++ ",\"items\":" ++ marshalItems o.Items
    ++ ",\"locale\":" ++ marshalString o.Locale
    ++ ",\"internal_signature\":" ++ marshalString o.InternalSignature
    ++ ",\"customer_id\":" ++ marshalString o.CustomerId
    ++ ",\"delivery_service\":" ++ marshalString o.DeliveryService
    ++ ",\"shardkey\":" ++ marshalString o.Shardkey
    ++ ",\"sm_id\":" ++ marshalInt o.SmId
    ++ ",\"date_created\":" ++ marshalString o.DateCreated
    ++ ",\"oof_shard\":" ++ marshalString o.OofShard ++ rbrace)

/-! ## `encoding/json`: `Unmarshal` into an `Order`

`jsonUnmarshal` follows the package documentation: the input must be one
well-formed JSON value (else a syntax error, and the target is untouched);
object keys are matched to field tags exactly or, failing that, without
regard to case; unknown keys are skipped; `null` leaves a field as it is (and
makes a slice nil); a value that does not fit its field is skipped and the
earliest such mismatch is returned as the error once decoding is complete.
An array is decoded as the decoder does it: into the elements that the slice
and its backing array already hold, so that a repeated `items` key merges into
the items of the earlier one. -/

/-- A parsed JSON value. Numbers keep their literal text. -/
inductive JValue where
  | null
  | bool (b : Bool)
  | number (literal : List Char)
  | string (s : String)
  | array (elems : List JValue)
  | object (members : List (String × JValue))

/-- JSON white space. -/
def isSpace (c : Char) : Bool := c = ' ' || c = '\t' || c = '\r' || c = '\n'

/-- Drops leading white space. -/
def skipSpace : List Char → List Char
  | [] => []
  | c :: cs => if isSpace c then skipSpace cs else c :: cs

/-- Value of a hexadecimal digit. -/
def hexValue (c : Char) : Option Nat :=
  if '0' ≤ c ∧ c ≤ '9' then some (c.toNat - 48)
  else if 'a' ≤ c ∧ c ≤ 'f' then some (c.toNat - 87)
  else if 'A' ≤ c ∧ c ≤ 'F' then some (c.toNat - 55)
  else none

/-- Value of four hexadecimal digits. -/
def hex4 (a b c d : Char) : Option Nat :=
  match hexValue a, hexValue b, hexValue c, hexValue d with
  | some w, some x, some y, some z => some (((w * 16 + x) * 16 + y) * 16 + z)
  | _, _, _, _ => none

/-- The Unicode replacement character U+FFFD. -/
def replacementChar : Char := Char.ofNat 65533

/-- Decodes the escape sequence that follows a backslash: the rune it denotes and
the number of input characters it occupies after the backslash. An escaped
surrogate pair is combined; a surrogate that is not part of a pair becomes
U+FFFD; an unknown escape is a syntax error. -/
def decodeEscape : List Char → Option (Char × Nat)
  | [] => none
  | e :: rest1 =>
    if e = 'u' then
      match rest1 with
      | h1 :: h2 :: h3 :: h4 :: rest2 =>
        match hex4 h1 h2 h3 h4 with
        | none => none
        | some u =>
          if 55296 ≤ u ∧ u < 57344 then
            match rest2 with
            | b :: v :: l1 :: l2 :: l3 :: l4 :: _ =>
              match hex4 l1 l2 l3 l4 with
              | some lo =>
                if b = '\\' ∧ v = 'u' ∧ u < 56320 ∧ 56320 ≤ lo ∧ lo < 57344 then
                  some (Char.ofNat (65536 + (u - 55296) * 1024 + (lo - 56320)), 11)
                else some (replacementChar, 5)
              | none => some (replacementChar, 5)
            | _ => some (replacementChar, 5)
          else some (Char.ofNat u, 5)
      | _ => none
    else if e = '"' then some ('"', 1)
    else if e = '\\' then some ('\\', 1)
    else if e = '/' then some ('/', 1)
    else if e = 'b' then some (Char.ofNat 8, 1)
    else if e = 'f' then some (Char.ofNat 12, 1)
    else if e = 'n' then some ('\n', 1)
    else if e = 'r' then some ('\r', 1)
    else if e = 't' then some ('\t', 1)
    else none

/-- Reads a string literal after its opening quote, first passing over `skip`
characters that belong to an escape sequence already decoded: the decoded text
and the input after the closing quote. A control character is a syntax error. -/
def scanStringFrom : List Char → (skip : Nat) → Option (List Char × List Char)
  | [], _ => none
  | _ :: rest, skip + 1 => scanStringFrom rest skip
  | c :: rest, 0 =>
    if c = '"' then some ([], rest)
    else if c = '\\' then
      match decodeEscape rest with
      | none => none
      | some (x, width) => (scanStringFrom rest width).map fun (s, r) => (x :: s, r)
    else if c.toNat < 32 then none
    else (scanStringFrom rest 0).map fun (s, r) => (c :: s, r)

/-- Reads a string literal after its opening quote. -/
def scanString (cs : List Char) : Option (List Char × List Char) := scanStringFrom cs 0

/-- Splits off the leading decimal digits. -/
def takeDigits : List Char → List Char × List Char
  | [] => ([], [])
  | c :: cs =>
    if c.isDigit then ((takeDigits cs).1.cons c, (takeDigits cs).2) else ([], c :: cs)

/-- The optional minus sign of a number: the sign read and the input after it. -/
def scanSign : List Char → List Char × List Char
  | [] => ([], [])
  | c :: r => if c = '-' then (['-'], r) else ([], c :: r)

/-- The integer part of a number: `0`, or a non-zero digit and further digits. -/
def scanIntPart : List Char → Option (List Char × List Char)
  | [] => none
  | d :: r =>
    if d = '0' then some (['0'], r)
    else if d.isDigit then some (d :: (takeDigits r).1, (takeDigits r).2)
    else none

/-- One or more digits. -/
def scanDigits1 (cs : List Char) : Option (List Char × List Char) :=
  if (takeDigits cs).1 = [] then none else some (takeDigits cs)

/-- The optional fraction of a number: a point and one or more digits. -/
def scanFrac : List Char → Option (List Char × List Char)
  | [] => some ([], [])
  | c :: r =>
    if c = '.' then (scanDigits1 r).map fun (ds, t) => ('.' :: ds, t) else some ([], c :: r)

/-- The optional sign of an exponent. -/
def scanExpSign : List Char → List Char × List Char
  | [] => ([], [])
  | c :: r => if c = '+' ∨ c = '-' then ([c], r) else ([], c :: r)

/-- The optional exponent of a number: `e` or `E`, an optional sign, and one or
more digits. -/
def scanExp : List Char → Option (List Char × List Char)
  | [] => some ([], [])
  | c :: r =>
    if c = 'e' ∨ c = 'E' then
      (scanDigits1 (scanExpSign r).2).map fun (ds, t) => (c :: (scanExpSign r).1 ++ ds, t)
    else some ([], c :: r)

/-- Reads a number literal `-? (0 | [1-9][0-9]*) (. [0-9]+)? ([eE] [+-]? [0-9]+)?`:
its text and the input after it. -/
def scanNumber (cs : List Char) : Option (List Char × List Char) :=
  match scanIntPart (scanSign cs).2 with
  | none => none
  | some (ds, cs2) =>
    match scanFrac cs2 with
    | none => none
    | some (fs, cs3) =>
      match scanExp cs3 with
      | none => none
      | some (es, cs4) => some ((scanSign cs).1 ++ ds ++ fs ++ es, cs4)

/-- Strips the characters of `word` from the front of the input. -/
def stripWord : (word : List Char) → List Char → Option (List Char)
  | [], cs => some cs
  | _ :: _, [] => none
  | w :: ws, c :: cs => if w = c then stripWord ws cs else none

/-- The deepest nesting of arrays and objects that the decoder accepts. -/
def maxNestingDepth : Nat := 10000

mutual
/-- Reads one JSON value, returning it with the remaining input. `depth` counts the
enclosing arrays and objects; `fuel` bounds the recursion and is consumed no faster
than the input. -/
def parseValue : (fuel : Nat) → (depth : Nat) → List Char → Option (JValue × List Char)
  | 0, _, _ => none
  | fuel + 1, depth, cs =>
    match skipSpace cs with
    | [] => none
    | c :: rest =>
      if c = Char.ofNat 123 then
        if maxNestingDepth ≤ depth then none
        else match skipSpace rest with
          | [] => none
          | c1 :: rest1 =>
            if c1 = Char.ofNat 125 then some (.object [], rest1)
            else (parseMembers fuel (depth + 1) (c1 :: rest1)).map fun (ms, r) => (.object ms, r)
      else if c = '[' then
        if maxNestingDepth ≤ depth then none
        else match skipSpace rest with
          | [] => none
          | c1 :: rest1 =>
            if c1 = ']' then some (.array [], rest1)
            else (parseElements fuel (depth + 1) (c1 :: rest1)).map fun (es, r) => (.array es, r)
      else if c = '"' then
        (scanString rest).map fun (s, r) => (.string (String.mk s), r)
      else if c = 't' then (stripWord "rue".data rest).map fun r => (.bool true, r)
      else if c = 'f' then (stripWord "alse".data rest).map fun r => (.bool false, r)
      else if c = 'n' then (stripWord "ull".data rest).map fun r => (.null, r)
      else (scanNumber (c :: rest)).map fun (lit, r) => (.number lit, r)
/-- Reads the members of an object after its opening brace, up to and including
the closing brace. -/
def parseMembers : (fuel : Nat) → (depth : Nat) → List Char →
    Option (List (String × JValue) × List Char)
  | 0, _, _ => none
  | fuel + 1, depth, cs =>
    match skipSpace cs with
    | [] => none
    | q :: rest =>
      if q = '"' then
        match scanString rest with
        | none => none
        | some (k, rest1) =>
          match skipSpace rest1 with
          | [] => none
          | colon :: rest2 =>
            if colon = ':' then
              match parseValue fuel depth rest2 with
              | none => none
              | some (v, rest3) =>
                match skipSpace rest3 with
                | [] => none
                | sep :: rest4 =>
                  if sep = ',' then
                    (parseMembers fuel depth rest4).map fun (ms, r) => ((String.mk k, v) :: ms, r)
                  else if sep = Char.ofNat 125 then some ([(String.mk k, v)], rest4)
                  else none
            else none
      else none
/-- Reads the elements of an array after its opening bracket, up to and including
the closing bracket. -/
def parseElements : (fuel : Nat) → (depth : Nat) → List Char →
    Option (List JValue × List Char)
  | 0, _, _ => none
  | fuel + 1, depth, cs =>
    match parseValue fuel depth cs with
    | none => none
    | some (v, rest) =>
      match skipSpace rest with
      | [] => none
      | sep :: rest1 =>
        if sep = ',' then (parseElements fuel depth rest1).map fun (es, r) => (v :: es, r)
        else if sep = ']' then some ([v], rest1)
        else none
end

/-- Parses a whole input as one JSON value surrounded by optional white space;
`none` is a syntax error. -/
def parseJSON (input : String) : Option JValue :=
  match parseValue (input.data.length + 1) 0 input.data with
  | none => none
  | some (v, rest) => if skipSpace rest = [] then some v else none

/-- Name of the JSON kind of a value, as the decoder reports it. -/
def JValue.kind : JValue → String
  | .null => "null"
  | .bool _ => "bool"
  | .number _ => "number"
  | .string _ => "string"
  | .array _ => "array"
  | .object _ => "object"

/-- The error for a JSON value that does not fit the Go type `goType`. -/
def typeError (v : JValue) (goType : String) : Error :=
  "json: cannot unmarshal " ++ v.kind ++ " into Go value of type " ++ goType

/-- Keeps the earliest error. -/
def firstError : Option Error → Option Error → Option Error
  | some e, _ => some e
  | none, e => e

/-- Case folding of one rune of an object key: ASCII letters to lower case, and
the two non-ASCII runes that fold to an ASCII letter (the Kelvin sign to `k`,
the long s to `s`). -/
def foldRune (c : Char) : Char :=
  if 'A' ≤ c ∧ c ≤ 'Z' then Char.ofNat (c.toNat + 32)
  else if c.toNat = 8490 then 'k'
  else if c.toNat = 383 then 's'
  else c

/-- The field tag that an object key selects among `tags` (all in lower case): the
key itself when it is a tag, else the tag equal to the key up to case. -/
def matchField (tags : List String) (key : String) : Option String :=
  if key ∈ tags then some key else tags.find? fun t => t.data = key.data.map foldRune

/-- Value of an integer literal that fits a 64-bit Go `int`. -/
def parseIntLiteral (lit : List Char) : Option Int :=
  let negative := lit.head? = some '-'
  let digits := if negative then lit.tail else lit
  if digits ≠ [] ∧ digits.all Char.isDigit then
    let n : Int := Int.ofNat (digits.foldl (fun acc d => acc * 10 + (d.toNat - 48)) 0)
    let v : Int := if negative then -n else n
    if -9223372036854775808 ≤ v ∧ v ≤ 9223372036854775807 then some v else none
  else none

/-- Decodes a JSON value into a `string` field holding `old`. -/
def decodeString (v : JValue) (old : String) : String × Option Error :=
  match v with
  | .string s => (s, none)
  | .null => (old, none)
  | other => (old, some (typeError other "string"))

/-- Decodes a JSON value into an `int` field holding `old`. -/
def decodeInt (v : JValue) (old : Int) : Int × Option Error :=
  match v with
  | .number lit =>
    match parseIntLiteral lit with
    | some n => (n, none)
    | none => (old, some (typeError v "int"))
  | .null => (old, none)
  | other => (old, some (typeError other "int"))

/-- Decodes the members of an object into a struct value, one after the other. -/
def decodeMembers {α : Type} (tags : List String)
    (setField : α → String → JValue → α × Option Error)
    (members : List (String × JValue)) (old : α) : α × Option Error :=
  members.foldl (fun acc m =>
    match matchField tags m.1 with
    | none => acc
    | some tag => ((setField acc.1 tag m.2).1, firstError acc.2 (setField acc.1 tag m.2).2))
    (old, none)

/-- Decodes a JSON value into a struct field holding `old`. -/
def decodeStruct {α : Type} (tags : List String)
    (setField : α → String → JValue → α × Option Error) (goType : String)
    (v : JValue) (old : α) : α × Option Error :=
  match v with
  | .object members => decodeMembers tags setField members old
  | .null => (old, none)
  | other => (old, some (typeError other goType))

/-- The JSON tags of `Delivery`. -/
def Delivery.tags : List String :=
  ["name", "phone", "zip", "city", "address", "region", "email"]

/-- Decodes `v` into the field of `d` tagged `tag`. -/
def Delivery.setField (d : Delivery) (tag : String) (v : JValue) : Delivery × Option Error :=
  if tag = "name" then ({ d with Name := (decodeString v d.Name).1 }, (decodeString v d.Name).2)
  else if tag = "phone" then
    ({ d with Phone := (decodeString v d.Phone).1 }, (decodeString v d.Phone).2)
  else if tag = "zip" then ({ d with Zip := (decodeString v d.Zip).1 }, (decodeString v d.Zip).2)
  else if tag = "city" then
    ({ d with City := (decodeString v d.City).1 }, (decodeString v d.City).2)
  else if tag = "address" then
    ({ d with Address := (decodeString v d.Address).1 }, (decodeString v d.Address).2)
  else if tag = "region" then
    ({ d with Region := (decodeString v d.Region).1 }, (decodeString v d.Region).2)
  else if tag = "email" then
    ({ d with Email := (decodeString v d.Email).1 }, (decodeString v d.Email).2)
  else (d, none)

/-- The JSON tags of `Payment`. -/
def Payment.tags : List String :=
  ["transaction", "request_id", "currency", "provider", "amount", "payment_dt", "bank",
    "delivery_cost", "goods_total", "custom_fee"]

/-- Decodes `v` into the field of `p` tagged `tag`. -/
def Payment.setField (p : Payment) (tag : String) (v : JValue) : Payment × Option Error :=
  if tag = "transaction" then
    ({ p with Transaction := (decodeString v p.Transaction).1 }, (decodeString v p.Transaction).2)
  else if tag = "request_id" then
    ({ p with RequestId := (decodeString v p.RequestId).1 }, (decodeString v p.RequestId).2)
  else if tag = "currency" then
    ({ p with Currency := (decodeString v p.Currency).1 }, (decodeString v p.Currency).2)
  else if tag = "provider" then
    ({ p with Provider := (decodeString v p.Provider).1 }, (decodeString v p.Provider).2)
  else if tag = "amount" then
    ({ p with Amount := (decodeInt v p.Amount).1 }, (decodeInt v p.Amount).2)
  else if tag = "payment_dt" then
    ({ p with PaymentDt := (decodeInt v p.PaymentDt).1 }, (decodeInt v p.PaymentDt).2)
  else if tag = "bank" then
    ({ p with Bank := (decodeString v p.Bank).1 }, (decodeString v p.Bank).2)
  else if tag = "delivery_cost" then
    ({ p with DeliveryCost := (decodeInt v p.DeliveryCost).1 }, (decodeInt v p.DeliveryCost).2)
  else if tag = "goods_total" then
    ({ p with GoodsTotal := (decodeInt v p.GoodsTotal).1 }, (decodeInt v p.GoodsTotal).2)
  else if tag = "custom_fee" then
    ({ p with CustomFee := (decodeInt v p.CustomFee).1 }, (decodeInt v p.CustomFee).2)
  else (p, none)

/-- The JSON tags of `Item`. -/
def Item.tags : List String :=
  ["chrt_id", "track_number", "price", "rid", "name", "sale", "size", "total_price", "nm_id",
    "brand", "status"]

/-- Decodes `v` into the field of `it` tagged `tag`. -/
def Item.setField (it : Item) (tag : String) (v : JValue) : Item × Option Error :=
  if tag = "chrt_id" then
    ({ it with ChrtId := (decodeInt v it.ChrtId).1 }, (decodeInt v it.ChrtId).2)
  else if tag = "track_number" then
    ({ it with TrackNumber := (decodeString v it.TrackNumber).1 },
      (decodeString v it.TrackNumber).2)
  else if tag = "price" then
    ({ it with Price := (decodeInt v it.Price).1 }, (decodeInt v it.Price).2)
  else if tag = "rid" then ({ it with RID := (decodeString v it.RID).1 }, (decodeString v it.RID).2)
  else if tag = "name" then
    ({ it with Name := (decodeString v it.Name).1 }, (decodeString v it.Name).2)
  else if tag = "sale" then ({ it with Sale := (decodeInt v it.Sale).1 }, (decodeInt v it.Sale).2)
  else if tag = "size" then
    ({ it with Size := (decodeString v it.Size).1 }, (decodeString v it.Size).2)
  else if tag = "total_price" then
    ({ it with TotalPrice := (decodeInt v it.TotalPrice).1 }, (decodeInt v it.TotalPrice).2)
  else if tag = "nm_id" then ({ it with NmId := (decodeInt v it.NmId).1 }, (decodeInt v it.NmId).2)
  else if tag = "brand" then
    ({ it with Brand := (decodeString v it.Brand).1 }, (decodeString v it.Brand).2)
  else if tag = "status" then
    ({ it with Status := (decodeInt v it.Status).1 }, (decodeInt v it.Status).2)
  else (it, none)

/-- Decodes the entries of a JSON array into the elements of a backing array, one
after the other: entry `i` is decoded into element `i` as it stands, and into a
zero `Item` once the backing array is used up. -/
def decodeElems : List JValue → List Item → List (Item × Option Error)
  | [], _ => []
  | e :: es, [] =>
    decodeStruct Item.tags Item.setField "main.Item" e Item.zero :: decodeElems es []
  | e :: es, b :: backing =>
    decodeStruct Item.tags Item.setField "main.Item" e b :: decodeElems es backing

/-- Decodes a JSON value into the `Items` slice. `old` is the slice and `spare` the
elements of its backing array beyond its length. `null` makes the slice nil. An
array is decoded into the elements already in the backing array, the slice
then has one element per entry and the elements behind them stay as spare; an
empty array gives a new empty slice. Another value leaves the slice as it is. -/
def decodeItems (v : JValue) (old : Option (List Item)) (spare : List Item) :
    (Option (List Item) × List Item) × Option Error :=
  match v with
  | .null => ((none, []), none)
  | .array [] => ((some [], []), none)
  | .array elems =>
    ((some ((decodeElems elems (old.getD [] ++ spare)).map Prod.fst),
        (old.getD [] ++ spare).drop elems.length),
      (decodeElems elems (old.getD [] ++ spare)).foldl (fun acc r => firstError acc r.2) none)
  | other => ((old, spare), some (typeError other "[]main.Item"))

/-- The JSON tags of `Order`. -/
def Order.tags : List String :=
  ["order_uid", "track_number", "entry", "delivery", "payment", "items", "locale",
    "internal_signature", "customer_id", "delivery_service", "shardkey", "sm_id", "date_created",
    "oof_shard"]

/-- Decodes `v` into the field of `o` tagged `tag`, for every tag but `items`. -/
def Order.setField (o : Order) (tag : String) (v : JValue) : Order × Option Error :=
  if tag = "order_uid" then
    ({ o with OrderUid := (decodeString v o.OrderUid).1 }, (decodeString v o.OrderUid).2)
  else if tag = "track_number" then
    ({ o with TrackNumber := (decodeString v o.TrackNumber).1 }, (decodeString v o.TrackNumber).2)
  else if tag = "entry" then
    ({ o with Entry := (decodeString v o.Entry).1 }, (decodeString v o.Entry).2)
  else if tag = "delivery" then
    ({ o with Delivery :=
        (decodeStruct Delivery.tags Delivery.setField "main.Delivery" v o.Delivery).1 },
      (decodeStruct Delivery.tags Delivery.setField "main.Delivery" v o.Delivery).2)
  else if tag = "payment" then
    ({ o with Payment :=
        (decodeStruct Payment.tags Payment.setField "main.Payment" v o.Payment).1 },
      (decodeStruct Payment.tags Payment.setField "main.Payment" v o.Payment).2)
  else if tag = "locale" then
    ({ o with Locale := (decodeString v o.Locale).1 }, (decodeString v o.Locale).2)
  else if tag = "internal_signature" then
    ({ o with InternalSignature := (decodeString v o.InternalSignature).1 },
      (decodeString v o.InternalSignature).2)
  else if tag = "customer_id" then
    ({ o with CustomerId := (decodeString v o.CustomerId).1 }, (decodeString v o.CustomerId).2)
  else if tag = "delivery_service" then
    ({ o with DeliveryService := (decodeString v o.DeliveryService).1 },
      (decodeString v o.DeliveryService).2)
  else if tag = "shardkey" then
    ({ o with Shardkey := (decodeString v o.Shardkey).1 }, (decodeString v o.Shardkey).2)
  else if tag = "sm_id" then ({ o with SmId := (decodeInt v o.SmId).1 }, (decodeInt v o.SmId).2)
  else if tag = "date_created" then
    ({ o with DateCreated := (decodeString v o.DateCreated).1 }, (decodeString v o.DateCreated).2)
  else if tag = "oof_shard" then
    ({ o with OofShard := (decodeString v o.OofShard).1 }, (decodeString v o.OofShard).2)
  else (o, none)

/-- The order that `Unmarshal` is filling, together with the elements of the
backing array of `Items` that lie beyond the length of the slice. -/
structure OrderTarget where
  order : Order
  spare : List Item

/-- Decodes `v` into the field tagged `tag` of the order being filled. -/
def OrderTarget.setField (t : OrderTarget) (tag : String) (v : JValue) :
    OrderTarget × Option Error :=
  if tag = "items" then
    ({ order := { t.order with Items := (decodeItems v t.order.Items t.spare).1.1 },
       spare := (decodeItems v t.order.Items t.spare).1.2 },
      (decodeItems v t.order.Items t.spare).2)
  else ({ t with order := (t.order.setField tag v).1 }, (t.order.setField tag v).2)

/-- Model of `json.Unmarshal(data, o)` for `o *Order`: the order after the call and
the error returned. The `Items` slice of `o` is taken to fill its backing array. -/
def jsonUnmarshal (data : Bytes) (o : Order) : Order × Option Error :=
  match parseJSON data.string with
  | none => (o, some "json: syntax error")
  | some v =>
    ((decodeStruct Order.tags OrderTarget.setField "main.Order" v
        { order := o, spare := [] }).1.order,
      (decodeStruct Order.tags OrderTarget.setField "main.Order" v
        { order := o, spare := [] }).2)

/-! ## Order methods -/

/-- Source: `(o *Order) InitFromJSON`. The receiver is updated in place; the result
is the receiver after the call together with the returned error. -/
def Order.InitFromJSON (o : Order) (jsonData : Bytes) : Order × Option Error :=
  jsonUnmarshal jsonData o

/-- Source: `(o *Order) CompareToJSON`. The `range` over `jsonKeysCount` returns
false at the first key that fails a test, so the result is that all keys pass. -/
def Order.CompareToJSON (o : Order) (jsonData : Bytes) : Except Panic Bool :=
  match jsonMarshal o with
  | .error _ => .ok false
  | .ok orderJson =>
    match getJsonKeysFormString orderJson with
    | .error p => .error p
    | .ok orderKeys =>
      match getJsonKeysFormString jsonData.string with
      | .error p => .error p
      | .ok jsonKeys =>
        let orderKeysCount := countStringsInSlice orderKeys
        let jsonKeysCount := countStringsInSlice jsonKeys
        .ok (jsonKeysCount.all fun (key, number) =>
          match GoMap.get? orderKeysCount key with
          | none => false
          | some orderValue => decide (orderValue = number))

/-! ## Persistent store

The SQL database is external to the repository. `SqlDriver σ` lists what the three
statements of the program answer on a database in state `σ`; the methods of `Db`
are embedded on top of it. -/

/-- The result of `QueryRow`: the deferred error `row.Err()` and, when the
statement ran, the `json_data` column of the first row (`none`: no row). -/
structure SqlRow where
  err : Option Error
  column : Option Bytes
  deriving DecidableEq, Repr

/-- The answers of the database to the statements sent by `Db`. -/
structure SqlDriver (σ : Type) where
  /-- `QueryRow("INSERT INTO orders VALUES ($1, $2)", uid, data)` and `row.Err()`:
  the state after the statement and the error. -/
  insertOrder : σ → String → String → σ × Option Error
  /-- `QueryRow("SELECT json_data FROM orders WHERE uid='$1'", uid)`. -/
  selectOrder : σ → String → SqlRow
  /-- `Query("SELECT * FROM orders;")`: the error of the query, or what
  `rows.Scan(&uid, &jsonData)` yields for each row that `rows.Next()` delivers. -/
  selectAll : σ → Except Error (List (Except Error (String × Bytes)))

/-- Source: `type Db struct`. `dataBase` is the state of the database and `driver`
its behaviour. -/
structure Db (σ : Type) where
  driver : SqlDriver σ
  dataBase : σ

/-- Source: `(db *Db) AddOrder`. -/
def Db.AddOrder {σ : Type} (db : Db σ) (uid : String) (newOrder : Bytes) :
    Db σ × Option Error :=
  ({ db with dataBase := (db.driver.insertOrder db.dataBase uid newOrder.string).1 },
    (db.driver.insertOrder db.dataBase uid newOrder.string).2)

/-- The error of `row.Scan(orderData)` in `Db.GetOrder` when `row.Err()` is nil.
`orderData` is a `[]byte` passed by value, so nothing is stored and the scan fails:
with no row, or else because the destination is not a pointer. -/
def SqlRow.ScanByValue (row : SqlRow) : Error :=
  match row.column with
  | none => "sql: no rows in result set"
  | some _ => "sql: Scan error on column index 0, name \"json_data\": destination not a pointer"

/-- Source: `(db *Db) GetOrder`. -/
def Db.GetOrder {σ : Type} (db : Db σ) (uid : String) : Bytes × Option Error :=
  match (db.driver.selectOrder db.dataBase uid).err with
  | some err => (none, some err)
  | none => (none, some (db.driver.selectOrder db.dataBase uid).ScanByValue)

/-- Loop `for rows.Next()` of `Db.GetAllOrders` over the rows still to come. -/
def scanOrderRows : List (Except Error (String × Bytes)) → GoMap Bytes →
    Option (GoMap Bytes) × Option Error
  | [], orders => (some orders, none)
  | .error err :: _, _ => (none, some err)
  | .ok (uid, jsonData) :: rest, orders => scanOrderRows rest (GoMap.set orders uid jsonData)

/-- Source: `(db *Db) GetAllOrders`. The map result is nil (`none`) on failure. -/
def Db.GetAllOrders {σ : Type} (db : Db σ) : Option (GoMap Bytes) × Option Error :=
  match db.driver.selectAll db.dataBase with
  | .error err => (none, some err)
  | .ok rows => scanOrderRows rows []

/-! ## Read cache -/

/-- Source: `type Cache struct`. `Orders` is nil (`none`) or an initialised map. -/
structure Cache where
  Orders : Option (GoMap Bytes)
  deriving DecidableEq, Repr

/-- Source: `(c *Cache) RestoreFromDb`. The error of `GetAllOrders` is printed and
the method ends with `return nil`. -/
def Cache.RestoreFromDb {σ : Type} (c : Cache) (db : Db σ) : Cache × Option Error :=
  ({ c with Orders := db.GetAllOrders.1 }, none)

/-- Source: `NewCache`. The first component is the returned `*Cache` (`none`: nil). -/
def NewCache {σ : Type} (db : Db σ) : Option Cache × Option Error :=
  let cache : Cache := { Orders := some [] }
  match (cache.RestoreFromDb db).2 with
  | some err => (none, some err)
  | none => (some (cache.RestoreFromDb db).1, none)

/-- Source: `(c *Cache) AddOrder`. Reading a nil map finds nothing; writing to it
panics. -/
def Cache.AddOrder (c : Cache) (uid : String) (newItem : Bytes) :
    Except Panic (Cache × Option Error) :=
  match c.Orders.bind fun orders => GoMap.get? orders uid with
  | some _ => .ok (c, some ("Element " ++ uid ++ " already exists in cache"))
  | none =>
    match c.Orders with
    | none => .error .nilMapAssign
    | some orders => .ok ({ c with Orders := some (GoMap.set orders uid newItem) }, none)

/-- Source: `(c *Cache) GetOrder`. -/
def Cache.GetOrder (c : Cache) (uid : String) : Bytes :=
  match c.Orders with
  | none => none
  | some orders =>
    match GoMap.get? orders uid with
    | some value => value
    | none => none

/-! ## Handlers -/

/-- A call into the store, or a write to the cache, made by a handler. -/
inductive Call where
  | dbAddOrder (uid : String) (data : Bytes)
  | cacheAddOrder (uid : String) (data : Bytes)
  | dbGetOrder (uid : String)
  deriving DecidableEq, Repr

/-- Source: `type Program struct` (the fields that the handlers use). -/
structure Program (σ : Type) where
  db : Db σ
  cache : Cache

/-- One run of the subscription handler: the program state when the handler
returned or panicked, the calls it made in order, and the panic if any. -/
structure HandlerRun (σ : Type) where
  program : Program σ
  calls : List Call
  panic : Option Panic

/-- Source: the handler passed to `Subscribe` in `(p *Program) Setup`, run on a
message with body `msgData`. In the condition, `CompareToJSON` is evaluated
before `err == nil`; the results of both `AddOrder` calls are discarded. -/
def Program.handleMsg {σ : Type} (p : Program σ) (msgData : Bytes) : HandlerRun σ :=
  let newOrder := (Order.zero.InitFromJSON msgData).1
  let err := (Order.zero.InitFromJSON msgData).2
  match newOrder.CompareToJSON msgData with
  | .error pn => { program := p, calls := [], panic := some pn }
  | .ok same =>
    if same ∧ err = none then
      let db := (p.db.AddOrder newOrder.OrderUid msgData).1
      match p.cache.AddOrder newOrder.OrderUid msgData with
      | .error pn =>
        { program := { p with db := db },
          calls := [.dbAddOrder newOrder.OrderUid msgData,
            .cacheAddOrder newOrder.OrderUid msgData],
          panic := some pn }
      | .ok (cache, _) =>
        { program := { db := db, cache := cache },
          calls := [.dbAddOrder newOrder.OrderUid msgData,
            .cacheAddOrder newOrder.OrderUid msgData],
          panic := none }
    else { program := p, calls := [], panic := none }

/-- Source: `type OrdersServer struct` (the fields that the handler uses). -/
structure OrdersServer (σ : Type) where
  cache : Cache
  db : Db σ

/-- One run of the `GET /orders/{uid}` handler: the server state afterwards, the
bytes passed to `w.Write`, and the store calls made. -/
structure LookupRun (σ : Type) where
  server : OrdersServer σ
  response : Bytes
  calls : List Call

/-- Source: the handler registered by `(s *OrdersServer) Setup`, run for the path
variable `uid`. -/
def OrdersServer.handleGet {σ : Type} (s : OrdersServer σ) (uid : String) : LookupRun σ :=
  let order := s.cache.GetOrder uid
  if order = none then
    { server := s, response := (s.db.GetOrder uid).1, calls := [.dbGetOrder uid] }
  else { server := s, response := order, calls := [] }

/-! ## Two databases -/

/-- A table `orders` whose `uid` column is a key: a map from identifier to payload
text that accepts an insert only for a new identifier. The `SELECT` of
`Db.GetOrder` has no parameter (its `$1` is inside a string literal), so a call
that passes one is refused. -/
def insertOnlyStore : SqlDriver (GoMap String) where
  insertOrder := fun rows uid data =>
    match GoMap.get? rows uid with
    | some _ => (rows, some "pq: duplicate key value violates unique constraint")
    | none => (GoMap.set rows uid data, none)
  selectOrder := fun _ _ =>
    { err := some "pq: got 1 parameters but the statement requires 0", column := none }
  selectAll := fun rows => .ok (rows.map fun r => .ok (r.1, some r.2))

/-- A database that cannot be reached: every statement fails. -/
def offlineStore : SqlDriver Unit where
  insertOrder := fun _ _ _ => ((), some "dial tcp 127.0.0.1:5432: connect: connection refused")
  selectOrder := fun _ _ =>
    { err := some "dial tcp 127.0.0.1:5432: connect: connection refused", column := none }
  selectAll := fun _ => .error "dial tcp 127.0.0.1:5432: connect: connection refused"

/-! ## Sample messages and states -/

/-- A message body with the key `promo_code`, which is not a field of the order. -/
def promoPayload : Bytes := some "\x7b\"order_uid\":\"A1\",\"promo_code\":\"X\"\x7d"

/-- A message body whose key `promo_code` is followed by a blank before the colon. -/
def spacedPromoPayload : Bytes :=
  some "\x7b\"order_uid\":\"A1\",\"promo_code\" :\"X\"\x7d"

/-- The text of an order with an identifier and an empty item list. -/
def smallText : String := "\x7b\"order_uid\":\"A1\",\"items\":[]\x7d"

/-- A message body with an identifier and an empty item list. -/
def smallPayload : Bytes := some smallText

/-- A message body with an identifier only. -/
def uidPayload : Bytes := some "\x7b\"order_uid\":\"A1\"\x7d"

/-- A message body that is one JSON string: the letter a between double quotes. -/
def quotedPayload : Bytes := some "\"a\""

/-- The database that cannot be reached. -/
def offlineDb : Db Unit := { driver := offlineStore, dataBase := () }

/-- An empty table `orders`. -/
def emptyDb : Db (GoMap String) := { driver := insertOnlyStore, dataBase := [] }

/-! ## Maps and key counts -/

/-- Reading a map after a write. -/
theorem GoMap.get?_set {ν : Type} (m : GoMap ν) (k k' : String) (v : ν) :
    GoMap.get? (GoMap.set m k v) k' = if k = k' then some v else GoMap.get? m k' := by
  induction m with
  | nil => simp [GoMap.set, GoMap.get?]
  | cons hd tl ih =>
    obtain ⟨a, b⟩ := hd
    by_cases h : a = k
    · subst h
      by_cases h' : a = k' <;> simp [GoMap.set, GoMap.get?, h']
    · by_cases h' : a = k'
      · subst h'
        have : ¬ k = a := fun e => h e.symm
        simp [GoMap.set, GoMap.get?, h, this]
      · simp [GoMap.set, GoMap.get?, h, h', ih]

/-- The keys of a map after a write: unchanged for a present key, else one more. -/
theorem GoMap.keys_set {ν : Type} (m : GoMap ν) (k : String) (v : ν) :
    (GoMap.set m k v).map Prod.fst
      = if k ∈ m.map Prod.fst then m.map Prod.fst else m.map Prod.fst ++ [k] := by
  induction m with
  | nil => simp [GoMap.set]
  | cons hd tl ih =>
    obtain ⟨a, b⟩ := hd
    by_cases h : a = k
    · subst h; simp [GoMap.set]
    · have h2 : ¬ k = a := fun e => h e.symm
      simp only [GoMap.set, h, if_false, List.map_cons, ih, List.mem_cons, h2, false_or]
      split <;> simp

/-- With unique keys, the entries of a map are what reading it finds. -/
theorem GoMap.mem_iff_get? {ν : Type} (m : GoMap ν) (hnd : (m.map Prod.fst).Nodup)
    (k : String) (v : ν) :
    (k, v) ∈ m ↔ GoMap.get? m k = some v := by
  induction m with
  | nil => simp [GoMap.get?]
  | cons hd tl ih =>
    obtain ⟨a, b⟩ := hd
    simp only [List.map_cons, List.nodup_cons] at hnd
    by_cases h : a = k
    · subst h
      simp only [GoMap.get?, if_true, List.mem_cons, Prod.mk.injEq, true_and, Option.some.injEq]
      constructor
      · rintro (h | h)
        · exact h.symm
        · exact absurd (List.mem_map_of_mem Prod.fst h) hnd.1
      · intro h; exact Or.inl h.symm
    · have h2 : ¬ k = a := fun e => h e.symm
      simp [GoMap.get?, h, h2, ih hnd.2]

/-- Invariant of the counting loop: after the strings `pre`, the map has unique keys
and holds for each string its number of occurrences in `pre`. -/
theorem countStringsInSlice_inv (slice : List String) :
    ∀ (m : GoMap Nat) (pre : List String),
      (m.map Prod.fst).Nodup →
      (∀ k, GoMap.get? m k = if k ∈ pre then some (pre.count k) else none) →
      ((slice.foldl (fun result val =>
          GoMap.set result val ((GoMap.get? result val).getD 0 + 1)) m).map Prod.fst).Nodup ∧
      ∀ k, GoMap.get? (slice.foldl (fun result val =>
          GoMap.set result val ((GoMap.get? result val).getD 0 + 1)) m) k
        = if k ∈ pre ++ slice then some ((pre ++ slice).count k) else none := by
  induction slice with
  | nil => intro m pre hnd hget; simpa using ⟨hnd, hget⟩
  | cons val rest ih =>
    intro m pre hnd hget
    have hkeys : ∀ k, k ∈ m.map Prod.fst ↔ k ∈ pre := by
      intro k
      constructor
      · intro hk
        obtain ⟨⟨a, b⟩, hab, rfl⟩ := List.mem_map.1 hk
        have := (GoMap.mem_iff_get? m hnd a b).1 hab
        rw [hget] at this
        by_contra hc
        simp [hc] at this
      · intro hk
        have := hget k
        simp only [hk, if_true] at this
        have := (GoMap.mem_iff_get? m hnd k _).2 this
        exact List.mem_map_of_mem Prod.fst this
    have step := ih (GoMap.set m val ((GoMap.get? m val).getD 0 + 1)) (pre ++ [val]) ?_ ?_
    · simpa [List.foldl_cons, List.append_assoc] using step
    · rw [GoMap.keys_set]
      split
      · exact hnd
      · rename_i hn
        exact List.Nodup.append hnd (List.nodup_singleton _) (by simpa using hn)
    · intro k
      rw [GoMap.get?_set]
      by_cases hk : val = k
      · subst hk
        simp only [if_true, List.mem_append, List.mem_singleton, or_true, List.count_append]
        rw [hget]
        by_cases hm : val ∈ pre
        · simp [hm]
        · simp [hm, List.count_eq_zero_of_not_mem hm]
      · have hk' : ¬ k = val := fun e => hk e.symm
        simp only [hk, if_false, List.mem_append, List.mem_singleton, hk', or_false,
          List.count_append]
        rw [hget]
        simp [List.count_singleton, hk]

/-- The count map has unique keys. -/
theorem countStringsInSlice_nodup (slice : List String) :
    ((countStringsInSlice slice).map Prod.fst).Nodup := by
  have := (countStringsInSlice_inv slice [] [] (by simp) (by simp [GoMap.get?])).1
  simpa [countStringsInSlice] using this

/-- Reading the count map gives the number of occurrences in the slice, and finds
nothing for a string that does not occur. -/
theorem countStringsInSlice_get? (slice : List String) (k : String) :
    GoMap.get? (countStringsInSlice slice) k
      = if k ∈ slice then some (slice.count k) else none := by
  have := (countStringsInSlice_inv slice [] [] (by simp) (by simp [GoMap.get?])).2 k
  simpa [countStringsInSlice] using this

/-- The entries of the count map. -/
theorem countStringsInSlice_mem (slice : List String) (k : String) (n : Nat) :
    (k, n) ∈ countStringsInSlice slice ↔ k ∈ slice ∧ n = slice.count k := by
  rw [GoMap.mem_iff_get? _ (countStringsInSlice_nodup slice), countStringsInSlice_get?]
  by_cases h : k ∈ slice
  · simp [h, eq_comm]
  · simp [h]

/-! ## The validator -/

/-- The key scan completes on every rune list that does not end in a double quote. -/
theorem scanKeys_ok (runes : List Char) :
    ∀ (i : Nat) (allKeys : List String) (key : String) (keyStarted : Bool),
      runes.getLast? ≠ some '"' → ∃ ks, scanKeys runes i allKeys key keyStarted = .ok ks := by
  induction runes with
  | nil => intro i allKeys key keyStarted _; exact ⟨allKeys, rfl⟩
  | cons r rest ih =>
    intro i allKeys key keyStarted hlast
    cases rest with
    | nil =>
      have hr : r ≠ '"' := by simpa using hlast
      simp only [scanKeys, hr, if_false]
      exact ⟨_, rfl⟩
    | cons next rest' =>
      have hlast' : (next :: rest').getLast? ≠ some '"' := by
        simpa [List.getLast?_cons_cons] using hlast
      by_cases hr : r = '"'
      · cases keyStarted with
        | false => simpa [scanKeys, hr] using ih (i + 1) allKeys key true hlast'
        | true => simpa [scanKeys, hr] using ih (i + 1) _ "" false hlast'
      · simpa [scanKeys, hr] using ih (i + 1) allKeys _ keyStarted hlast'

/-- The encoding of an order ends in a closing brace. -/
theorem jsonMarshal_shape (o : Order) :
    ∃ body : String, jsonMarshal o = .ok (body ++ rbrace) := ⟨_, rfl⟩

/-- The key scan completes on the encoding of every order. -/
theorem getJsonKeysFormString_marshal (o : Order) :
    ∃ E orderKeys, jsonMarshal o = .ok E ∧ getJsonKeysFormString E = .ok orderKeys := by
  obtain ⟨body, hE⟩ := jsonMarshal_shape o
  have := scanKeys_ok (body ++ rbrace).data 0 [] "" false (by simp [rbrace, String.data_append])
  obtain ⟨ks, hks⟩ := this
  exact ⟨_, ks, hE, hks⟩

/-- The `range` loop of `CompareToJSON` passes exactly when every scanned key of the
payload reads the same in both count maps. -/
theorem compare_all_iff (orderKeys jsonKeys : List String) :
    ((countStringsInSlice jsonKeys).all fun (key, number) =>
        match GoMap.get? (countStringsInSlice orderKeys) key with
        | none => false
        | some orderValue => decide (orderValue = number))
      = decide (∀ k ∈ jsonKeys, GoMap.get? (countStringsInSlice orderKeys) k
          = GoMap.get? (countStringsInSlice jsonKeys) k) := by
  rw [Bool.eq_iff_iff]
  simp only [List.all_eq_true, decide_eq_true_eq, Prod.forall]
  constructor
  · intro h k hk
    have h1 := h k (jsonKeys.count k) ((countStringsInSlice_mem jsonKeys k _).2 ⟨hk, rfl⟩)
    rw [countStringsInSlice_get? jsonKeys, if_pos hk]
    cases hg : GoMap.get? (countStringsInSlice orderKeys) k with
    | none => simp [hg] at h1
    | some v => simpa [hg] using h1
  · intro h k n hkn
    obtain ⟨hk, rfl⟩ := (countStringsInSlice_mem jsonKeys k n).1 hkn
    have h1 := h k hk
    rw [countStringsInSlice_get? jsonKeys, if_pos hk] at h1
    simp [h1]

/-- The result of `CompareToJSON` when the key scan of the payload completes with
`jsonKeys`: the encoding is produced, its key scan completes, and the result is
the truth value of the comparison of counts. -/
theorem compareToJSON_counts (o : Order) (jsonData : Bytes) (jsonKeys : List String)
    (hscan : getJsonKeysFormString jsonData.string = .ok jsonKeys) :
    ∃ E orderKeys, jsonMarshal o = .ok E ∧ getJsonKeysFormString E = .ok orderKeys ∧
      o.CompareToJSON jsonData = .ok (decide (∀ k ∈ jsonKeys,
        GoMap.get? (countStringsInSlice orderKeys) k
          = GoMap.get? (countStringsInSlice jsonKeys) k)) := by
  obtain ⟨E, orderKeys, hE, hkeys⟩ := getJsonKeysFormString_marshal o
  refine ⟨E, orderKeys, hE, hkeys, ?_⟩
  simp only [Order.CompareToJSON, hE, hkeys, hscan]
  rw [compare_all_iff]

/-- A result that is the truth value of `P`: it is a Boolean, and it is true
exactly when `P` holds. -/
theorem ok_decide_iff (x : Except Panic Bool) (P : Prop) [Decidable P]
    (h : x = .ok (decide P)) : (x = .ok true ∨ x = .ok false) ∧ (x = .ok true ↔ P) := by
  subst h
  by_cases hP : P <;> simp [hP]

/-- C1. When the key scan of `jsonData` completes with the key list `jsonKeys`,
the encoding `E` of the order is produced, its key scan completes too,
`CompareToJSON` returns a Boolean, and it returns true exactly when every key
name found in `jsonData` has the same count among the keys of `E` as among the
keys of `jsonData`, both counts read from `countStringsInSlice`. -/
theorem compareToJSON_iff_counts (o : Order) (jsonData : Bytes) (jsonKeys : List String)
    (hscan : getJsonKeysFormString jsonData.string = .ok jsonKeys) :
    ∃ E orderKeys, jsonMarshal o = .ok E ∧ getJsonKeysFormString E = .ok orderKeys ∧
      (o.CompareToJSON jsonData = .ok true ∨ o.CompareToJSON jsonData = .ok false) ∧
      (o.CompareToJSON jsonData = .ok true ↔ ∀ k ∈ jsonKeys,
        GoMap.get? (countStringsInSlice orderKeys) k
          = GoMap.get? (countStringsInSlice jsonKeys) k) := by
  obtain ⟨E, orderKeys, hE, hkeys, hcmp⟩ := compareToJSON_counts o jsonData jsonKeys hscan
  exact ⟨E, orderKeys, hE, hkeys, ok_decide_iff _ _ hcmp⟩

/-- If `CompareToJSON` panics, the key scan of the payload panicked. -/
theorem compareToJSON_error (o : Order) (jsonData : Bytes) (pn : Panic)
    (h : o.CompareToJSON jsonData = .error pn) :
    getJsonKeysFormString jsonData.string = .error pn := by
  obtain ⟨E, orderKeys, hE, hkeys⟩ := getJsonKeysFormString_marshal o
  unfold Order.CompareToJSON at h
  rw [hE] at h
  simp only [hkeys] at h
  cases hs : getJsonKeysFormString jsonData.string with
  | error e =>
    rw [hs] at h
    simpa using h
  | ok ks =>
    rw [hs] at h
    simp at h

set_option maxRecDepth 100000 in
/-- Witness of C1: the payload with the extra key `promo_code`, against the zero order. -/
theorem compareToJSON_iff_counts_witness :
    getJsonKeysFormString promoPayload.string = .ok ["order_uid", "promo_code"] ∧
    ∃ E orderKeys, jsonMarshal Order.zero = .ok E ∧ getJsonKeysFormString E = .ok orderKeys ∧
      (Order.zero.CompareToJSON promoPayload = .ok true ∨
        Order.zero.CompareToJSON promoPayload = .ok false) ∧
      (Order.zero.CompareToJSON promoPayload = .ok true ↔ ∀ k ∈ ["order_uid", "promo_code"],
        GoMap.get? (countStringsInSlice orderKeys) k
          = GoMap.get? (countStringsInSlice ["order_uid", "promo_code"]) k) :=
  ⟨by decide, compareToJSON_iff_counts Order.zero promoPayload _ (by decide)⟩

/-! ## The decoder: what a read consumes, and fuel -/

/-- Skipping white space leaves a suffix. -/
theorem skipSpace_suffix (cs : List Char) : skipSpace cs <:+ cs := by
  induction cs with
  | nil => exact List.suffix_refl _
  | cons c cs ih =>
    simp only [skipSpace]
    split
    · exact ih.trans (List.suffix_cons c cs)
    · exact List.suffix_refl _

/-- If nothing is left after skipping white space, the input was white space. -/
theorem skipSpace_eq_nil (cs : List Char) (h : skipSpace cs = []) :
    ∀ c ∈ cs, isSpace c = true := by
  induction cs with
  | nil => simp
  | cons c cs ih =>
    simp only [skipSpace] at h
    split at h
    · rename_i hc
      intro x hx
      rcases List.mem_cons.1 hx with rfl | hx
      · exact hc
      · exact ih h x hx
    · cases h

/-- A string literal is followed by a suffix of the input. -/
theorem scanStringFrom_suffix (cs : List Char) :
    ∀ (skip : Nat) (s r : List Char), scanStringFrom cs skip = some (s, r) → r <:+ cs := by
  induction cs with
  | nil => intro skip s r h; cases skip <;> simp [scanStringFrom] at h
  | cons c cs ih =>
    intro skip s r h
    cases skip with
    | succ n =>
      simp only [scanStringFrom] at h
      exact (ih n s r h).trans (List.suffix_cons c cs)
    | zero =>
      simp only [scanStringFrom] at h
      split at h
      · simp only [Option.some.injEq, Prod.mk.injEq] at h
        rw [← h.2]; exact List.suffix_cons c cs
      · split at h
        · split at h
          · cases h
          · rename_i x width _
            cases hr : scanStringFrom cs width with
            | none => simp [hr] at h
            | some p =>
              obtain ⟨s', r'⟩ := p
              simp only [hr, Option.map_some', Option.some.injEq, Prod.mk.injEq] at h
              rw [← h.2]
              exact (ih width s' r' hr).trans (List.suffix_cons c cs)
        · split at h
          · cases h
          · cases hr : scanStringFrom cs 0 with
            | none => simp [hr] at h
            | some p =>
              obtain ⟨s', r'⟩ := p
              simp only [hr, Option.map_some', Option.some.injEq, Prod.mk.injEq] at h
              rw [← h.2]
              exact (ih 0 s' r' hr).trans (List.suffix_cons c cs)

/-- A stripped word is followed by a suffix of the input. -/
theorem stripWord_suffix (word : List Char) :
    ∀ (cs r : List Char), stripWord word cs = some r → r <:+ cs := by
  induction word with
  | nil => intro cs r h; simp only [stripWord, Option.some.injEq] at h; rw [h]
  | cons w ws ih =>
    intro cs r h
    cases cs with
    | nil => simp [stripWord] at h
    | cons c cs =>
      simp only [stripWord] at h
      split at h
      · exact (ih cs r h).trans (List.suffix_cons c cs)
      · cases h

/-- Leading digits are followed by a suffix of the input. -/
theorem takeDigits_suffix (cs : List Char) : (takeDigits cs).2 <:+ cs := by
  induction cs with
  | nil => simp [takeDigits]
  | cons c cs ih =>
    simp only [takeDigits]
    split
    · exact ih.trans (List.suffix_cons c cs)
    · exact List.suffix_refl _

/-- The sign of a number is followed by a suffix of the input. -/
theorem scanSign_suffix (cs : List Char) : (scanSign cs).2 <:+ cs := by
  cases cs with
  | nil => simp [scanSign]
  | cons c t =>
    simp only [scanSign]
    split
    · exact List.suffix_cons c t
    · exact List.suffix_refl _

/-- The integer part of a number takes at least one character. -/
theorem scanIntPart_suffix (xs ds t : List Char) (hx : scanIntPart xs = some (ds, t)) :
    t <:+ xs ∧ t.length < xs.length := by
  cases xs with
  | nil => simp [scanIntPart] at hx
  | cons d u =>
    have key : ∀ t' : List Char, t' <:+ u → t' <:+ d :: u ∧ t'.length < (d :: u).length :=
      fun t' hs => ⟨hs.trans (List.suffix_cons d u), by
        have := hs.length_le
        simp only [List.length_cons]
        omega⟩
    simp only [scanIntPart] at hx
    split at hx
    · simp only [Option.some.injEq, Prod.mk.injEq] at hx
      rw [← hx.2]; exact key _ (List.suffix_refl _)
    · split at hx
      · simp only [Option.some.injEq, Prod.mk.injEq] at hx
        rw [← hx.2]
        exact key _ (takeDigits_suffix u)
      · cases hx

/-- One or more digits are followed by a suffix of the input. -/
theorem scanDigits1_suffix (xs ds t : List Char) (hx : scanDigits1 xs = some (ds, t)) :
    t <:+ xs := by
  simp only [scanDigits1] at hx
  split at hx
  · cases hx
  · simp only [Option.some.injEq] at hx
    have := takeDigits_suffix xs
    rw [hx] at this
    exact this

/-- The fraction of a number is followed by a suffix of the input. -/
theorem scanFrac_suffix (xs fs t : List Char) (hx : scanFrac xs = some (fs, t)) : t <:+ xs := by
  cases xs with
  | nil =>
    simp only [scanFrac, Option.some.injEq, Prod.mk.injEq] at hx
    rw [← hx.2]
  | cons c u =>
    simp only [scanFrac] at hx
    split at hx
    · cases hd : scanDigits1 u with
      | none => simp [hd] at hx
      | some p =>
        obtain ⟨ds, t'⟩ := p
        simp only [hd, Option.map_some', Option.some.injEq, Prod.mk.injEq] at hx
        rw [← hx.2]
        exact (scanDigits1_suffix u ds t' hd).trans (List.suffix_cons c u)
    · simp only [Option.some.injEq, Prod.mk.injEq] at hx
      rw [← hx.2]

/-- The sign of an exponent is followed by a suffix of the input. -/
theorem scanExpSign_suffix (xs : List Char) : (scanExpSign xs).2 <:+ xs := by
  cases xs with
  | nil => simp [scanExpSign]
  | cons c t =>
    simp only [scanExpSign]
    split
    · exact List.suffix_cons c t
    · exact List.suffix_refl _

/-- The exponent of a number is followed by a suffix of the input. -/
theorem scanExp_suffix (xs es t : List Char) (hx : scanExp xs = some (es, t)) : t <:+ xs := by
  cases xs with
  | nil =>
    simp only [scanExp, Option.some.injEq, Prod.mk.injEq] at hx
    rw [← hx.2]
  | cons c u =>
    simp only [scanExp] at hx
    split at hx
    · cases hd : scanDigits1 (scanExpSign u).2 with
      | none => simp [hd] at hx
      | some p =>
        obtain ⟨ds, t'⟩ := p
        simp only [hd, Option.map_some', Option.some.injEq, Prod.mk.injEq] at hx
        rw [← hx.2]
        exact ((scanDigits1_suffix _ ds t' hd).trans (scanExpSign_suffix u)).trans
          (List.suffix_cons c u)
    · simp only [Option.some.injEq, Prod.mk.injEq] at hx
      rw [← hx.2]

/-- A number literal takes at least one character of the input. -/
theorem scanNumber_suffix (cs lit r : List Char) (h : scanNumber cs = some (lit, r)) :
    r <:+ cs ∧ r.length < cs.length := by
  simp only [scanNumber] at h
  cases h1 : scanIntPart (scanSign cs).2 with
  | none => simp [h1] at h
  | some p1 =>
    obtain ⟨ds, cs2⟩ := p1
    simp only [h1] at h
    cases h2 : scanFrac cs2 with
    | none => simp [h2] at h
    | some p2 =>
      obtain ⟨fs, cs3⟩ := p2
      simp only [h2] at h
      cases h3 : scanExp cs3 with
      | none => simp [h3] at h
      | some p3 =>
        obtain ⟨es, cs4⟩ := p3
        simp only [h3, Option.some.injEq, Prod.mk.injEq] at h
        rw [← h.2]
        obtain ⟨hs1, hl1⟩ := scanIntPart_suffix _ _ _ h1
        have h4 : cs4 <:+ cs2 := (scanExp_suffix _ _ _ h3).trans (scanFrac_suffix _ _ _ h2)
        have h5 := scanSign_suffix cs
        refine ⟨(h4.trans hs1).trans h5, ?_⟩
        have := h4.length_le
        have := h5.length_le
        omega

/-- After the letters `ull` the input continues right behind the last `l`. -/
theorem stripWord_ull (cs r : List Char) (h : stripWord "ull".data cs = some r) :
    ('l' :: r) <:+ cs := by
  match cs, h with
  | a :: b :: c :: t, h =>
    simp only [stripWord] at h
    split at h
    · split at h
      · split at h
        · rename_i h1 h2 h3
          simp only [Option.some.injEq] at h
          subst h
          rw [← h3]
          exact ⟨[a, b], rfl⟩
        · cases h
      · cases h
    · cases h
  | [], h => simp [stripWord] at h
  | [a], h => simp only [stripWord] at h; split at h <;> simp [stripWord] at h
  | [a, b], h =>
    simp only [stripWord] at h
    split at h
    · split at h <;> simp [stripWord] at h
    · cases h

/-- What the three readers leave behind. A value read by `parseValue` is followed
by a shorter suffix of the input, and an object or `null` ends in a character
other than a double quote; `parseMembers` stops right after a closing brace;
`parseElements` leaves a shorter suffix. -/
theorem parse_consumes (fuel : Nat) :
    (∀ depth cs v r, parseValue fuel depth cs = some (v, r) →
      r <:+ cs ∧ r.length < cs.length ∧
        ((v = .null ∨ ∃ ms, v = .object ms) → ∃ c, c ≠ '"' ∧ (c :: r) <:+ cs)) ∧
    (∀ depth cs ms r, parseMembers fuel depth cs = some (ms, r) →
      (Char.ofNat 125 :: r) <:+ cs) ∧
    (∀ depth cs es r, parseElements fuel depth cs = some (es, r) →
      r <:+ cs ∧ r.length < cs.length) := by
  induction fuel with
  | zero =>
    refine ⟨?_, ?_, ?_⟩ <;> intro depth cs v r h
    · simp [parseValue] at h
    · simp [parseMembers] at h
    · simp [parseElements] at h
  | succ fuel ih =>
    obtain ⟨ihV, ihM, ihE⟩ := ih
    refine ⟨?_, ?_, ?_⟩
    · intro depth cs v r h
      rw [parseValue] at h
      have hsp := skipSpace_suffix cs
      cases hcs : skipSpace cs with
      | nil => simp [hcs] at h
      | cons c rest =>
        rw [hcs] at hsp
        have hrest : rest <:+ cs := (List.suffix_cons c rest).trans hsp
        have fin : ∀ r' : List Char, r' <:+ rest → r' <:+ cs ∧ r'.length < cs.length :=
          fun r' hr' => ⟨hr'.trans hrest, by
            have h1 := hr'.length_le
            have h2 := hsp.length_le
            simp only [List.length_cons] at h2
            omega⟩
        simp only [hcs] at h
        split at h
        · -- object
          split at h
          · cases h
          · have hsp1 := skipSpace_suffix rest
            cases hr : skipSpace rest with
            | nil => simp [hr] at h
            | cons c1 rest1 =>
              rw [hr] at hsp1
              simp only [hr] at h
              split at h
              · rename_i hc1
                simp only [Option.some.injEq, Prod.mk.injEq] at h
                obtain ⟨_, rfl⟩ := h
                have : (c1 :: rest1) <:+ cs := hsp1.trans hrest
                exact ⟨(fin _ ((List.suffix_cons c1 rest1).trans hsp1)).1,
                  (fin _ ((List.suffix_cons c1 rest1).trans hsp1)).2,
                  fun _ => ⟨c1, by rw [hc1]; decide, this⟩⟩
              · cases hm : parseMembers fuel (depth + 1) (c1 :: rest1) with
                | none => simp [hm] at h
                | some p =>
                  obtain ⟨ms, r'⟩ := p
                  simp only [hm, Option.map_some', Option.some.injEq, Prod.mk.injEq] at h
                  obtain ⟨_, rfl⟩ := h
                  have hin : (Char.ofNat 125 :: r') <:+ rest := (ihM _ _ _ _ hm).trans hsp1
                  exact ⟨(fin _ ((List.suffix_cons _ _).trans hin)).1,
                    (fin _ ((List.suffix_cons _ _).trans hin)).2,
                    fun _ => ⟨_, by decide, hin.trans hrest⟩⟩
        · split at h
          · -- array
            split at h
            · cases h
            · have hsp1 := skipSpace_suffix rest
              cases hr : skipSpace rest with
              | nil => simp [hr] at h
              | cons c1 rest1 =>
                rw [hr] at hsp1
                simp only [hr] at h
                split at h
                · simp only [Option.some.injEq, Prod.mk.injEq] at h
                  obtain ⟨rfl, rfl⟩ := h
                  refine ⟨(fin _ ((List.suffix_cons c1 rest1).trans hsp1)).1,
                    (fin _ ((List.suffix_cons c1 rest1).trans hsp1)).2, ?_⟩
                  rintro (h | ⟨ms, h⟩) <;> cases h
                · cases hm : parseElements fuel (depth + 1) (c1 :: rest1) with
                  | none => simp [hm] at h
                  | some p =>
                    obtain ⟨es, r'⟩ := p
                    simp only [hm, Option.map_some', Option.some.injEq, Prod.mk.injEq] at h
                    obtain ⟨rfl, rfl⟩ := h
                    refine ⟨(fin _ ((ihE _ _ _ _ hm).1.trans hsp1)).1,
                      (fin _ ((ihE _ _ _ _ hm).1.trans hsp1)).2, ?_⟩
                    rintro (h | ⟨ms, h⟩) <;> cases h
          · split at h
            · -- string
              cases hs : scanString rest with
              | none => simp [hs] at h
              | some p =>
                obtain ⟨s, r'⟩ := p
                simp only [hs, Option.map_some', Option.some.injEq, Prod.mk.injEq] at h
                obtain ⟨rfl, rfl⟩ := h
                refine ⟨(fin _ (scanStringFrom_suffix rest 0 s r' hs)).1,
                  (fin _ (scanStringFrom_suffix rest 0 s r' hs)).2, ?_⟩
                rintro (h | ⟨ms, h⟩) <;> cases h
            · split at h
              · cases hs : stripWord "rue".data rest with
                | none => simp [hs] at h
                | some r' =>
                  simp only [hs, Option.map_some', Option.some.injEq, Prod.mk.injEq] at h
                  obtain ⟨rfl, rfl⟩ := h
                  refine ⟨(fin _ (stripWord_suffix _ _ _ hs)).1,
                    (fin _ (stripWord_suffix _ _ _ hs)).2, ?_⟩
                  rintro (h | ⟨ms, h⟩) <;> cases h
              · split at h
                · cases hs : stripWord "alse".data rest with
                  | none => simp [hs] at h
                  | some r' =>
                    simp only [hs, Option.map_some', Option.some.injEq, Prod.mk.injEq] at h
                    obtain ⟨rfl, rfl⟩ := h
                    refine ⟨(fin _ (stripWord_suffix _ _ _ hs)).1,
                      (fin _ (stripWord_suffix _ _ _ hs)).2, ?_⟩
                    rintro (h | ⟨ms, h⟩) <;> cases h
                · split at h
                  · cases hs : stripWord "ull".data rest with
                    | none => simp [hs] at h
                    | some r' =>
                      simp only [hs, Option.map_some', Option.some.injEq, Prod.mk.injEq] at h
                      obtain ⟨_, rfl⟩ := h
                      have hin : ('l' :: r') <:+ rest := stripWord_ull rest r' hs
                      exact ⟨(fin _ ((List.suffix_cons _ _).trans hin)).1,
                        (fin _ ((List.suffix_cons _ _).trans hin)).2,
                        fun _ => ⟨'l', by decide, hin.trans hrest⟩⟩
                  · cases hs : scanNumber (c :: rest) with
                    | none => simp [hs] at h
                    | some p =>
                      obtain ⟨lit, r'⟩ := p
                      simp only [hs, Option.map_some', Option.some.injEq, Prod.mk.injEq] at h
                      obtain ⟨rfl, rfl⟩ := h
                      obtain ⟨hn1, hn2⟩ := scanNumber_suffix _ _ _ hs
                      refine ⟨hn1.trans hsp, ?_, ?_⟩
                      · have := hsp.length_le
                        omega
                      · rintro (h | ⟨ms, h⟩) <;> cases h
    · intro depth cs ms r h
      rw [parseMembers] at h
      have hsp := skipSpace_suffix cs
      cases hcs : skipSpace cs with
      | nil => simp [hcs] at h
      | cons q rest =>
        rw [hcs] at hsp
        have hrest : rest <:+ cs := (List.suffix_cons q rest).trans hsp
        simp only [hcs] at h
        split at h
        · cases hs : scanString rest with
          | none => simp [hs] at h
          | some p =>
            obtain ⟨k, rest1⟩ := p
            have h1 : rest1 <:+ cs := (scanStringFrom_suffix rest 0 k rest1 hs).trans hrest
            simp only [hs] at h
            have hsp1 := skipSpace_suffix rest1
            cases hr1 : skipSpace rest1 with
            | nil => simp [hr1] at h
            | cons colon rest2 =>
              rw [hr1] at hsp1
              have h2 : rest2 <:+ cs := ((List.suffix_cons colon rest2).trans hsp1).trans h1
              simp only [hr1] at h
              split at h
              · cases hv : parseValue fuel depth rest2 with
                | none => simp [hv] at h
                | some p =>
                  obtain ⟨v, rest3⟩ := p
                  have h3 : rest3 <:+ cs := ((ihV _ _ _ _ hv).1).trans h2
                  simp only [hv] at h
                  have hsp3 := skipSpace_suffix rest3
                  cases hr3 : skipSpace rest3 with
                  | nil => simp [hr3] at h
                  | cons sep rest4 =>
                    rw [hr3] at hsp3
                    simp only [hr3] at h
                    split at h
                    · cases hm : parseMembers fuel depth rest4 with
                      | none => simp [hm] at h
                      | some p =>
                        obtain ⟨ms', r'⟩ := p
                        simp only [hm, Option.map_some', Option.some.injEq, Prod.mk.injEq] at h
                        obtain ⟨_, rfl⟩ := h
                        exact (((ihM _ _ _ _ hm).trans (List.suffix_cons sep rest4)).trans
                          hsp3).trans h3
                    · split at h
                      · rename_i hsep
                        simp only [Option.some.injEq, Prod.mk.injEq] at h
                        obtain ⟨_, rfl⟩ := h
                        rw [← hsep]
                        exact hsp3.trans h3
                      · cases h
              · cases h
        · cases h
    · intro depth cs es r h
      rw [parseElements] at h
      cases hv : parseValue fuel depth cs with
      | none => simp [hv] at h
      | some p =>
        obtain ⟨v, rest⟩ := p
        have h1 : rest <:+ cs := (ihV _ _ _ _ hv).1
        have hl1 : rest.length < cs.length := (ihV _ _ _ _ hv).2.1
        simp only [hv] at h
        have hsp := skipSpace_suffix rest
        cases hr : skipSpace rest with
        | nil => simp [hr] at h
        | cons sep rest1 =>
          rw [hr] at hsp
          have h2 : rest1 <:+ cs := ((List.suffix_cons sep rest1).trans hsp).trans h1
          have hl2 : rest1.length < cs.length := by
            have := ((List.suffix_cons sep rest1).trans hsp).length_le
            omega
          simp only [hr] at h
          split at h
          · cases hm : parseElements fuel depth rest1 with
            | none => simp [hm] at h
            | some p =>
              obtain ⟨es', r'⟩ := p
              simp only [hm, Option.map_some', Option.some.injEq, Prod.mk.injEq] at h
              obtain ⟨_, rfl⟩ := h
              refine ⟨(ihE _ _ _ _ hm).1.trans h2, ?_⟩
              have := (ihE _ _ _ _ hm).1.length_le
              omega
          · split at h
            · simp only [Option.some.injEq, Prod.mk.injEq] at h
              obtain ⟨_, rfl⟩ := h
              exact ⟨h2, hl2⟩
            · cases h

/-- Fuel is never short. A read that succeeds with some fuel succeeds, with the
same result, with any fuel at least the number of characters it takes. -/
theorem parse_fuel (fuel : Nat) :
    (∀ depth cs v r, parseValue fuel depth cs = some (v, r) →
      ∀ g, cs.length ≤ r.length + g → parseValue g depth cs = some (v, r)) ∧
    (∀ depth cs ms r, parseMembers fuel depth cs = some (ms, r) →
      ∀ g, cs.length ≤ r.length + g → parseMembers g depth cs = some (ms, r)) ∧
    (∀ depth cs es r, parseElements fuel depth cs = some (es, r) →
      ∀ g, cs.length ≤ r.length + g → parseElements g depth cs = some (es, r)) := by
  induction fuel with
  | zero =>
    refine ⟨?_, ?_, ?_⟩ <;> intro depth cs v r h
    · simp [parseValue] at h
    · simp [parseMembers] at h
    · simp [parseElements] at h
  | succ fuel ih =>
    obtain ⟨ihV, ihM, ihE⟩ := ih
    refine ⟨?_, ?_, ?_⟩
    · intro depth cs v r h g hg
      have hlt := ((parse_consumes _).1 _ _ _ _ h).2.1
      cases g with
      | zero => omega
      | succ g =>
        rw [parseValue] at h ⊢
        have hsp := skipSpace_suffix cs
        cases hcs : skipSpace cs with
        | nil => simp [hcs] at h
        | cons c rest =>
          rw [hcs] at hsp
          have hl := hsp.length_le
          simp only [List.length_cons] at hl
          simp only [hcs] at h ⊢
          split at h
          · rename_i hc
            simp only [hc, if_true]
            split at h
            · cases h
            · rename_i hd
              simp only [hd, if_false]
              have hsp1 := skipSpace_suffix rest
              cases hr : skipSpace rest with
              | nil => simp [hr] at h
              | cons c1 rest1 =>
                rw [hr] at hsp1
                have hl1 := hsp1.length_le
                simp only [hr] at h ⊢
                split at h
                · rename_i hc1
                  simp only [hc1, if_true]
                  exact h
                · rename_i hc1
                  simp only [hc1, if_false]
                  cases hm : parseMembers fuel (depth + 1) (c1 :: rest1) with
                  | none => simp [hm] at h
                  | some p =>
                    obtain ⟨ms, r'⟩ := p
                    simp only [hm, Option.map_some', Option.some.injEq, Prod.mk.injEq] at h
                    obtain ⟨rfl, rfl⟩ := h
                    rw [ihM _ _ _ _ hm g (by omega)]
                    rfl
          · rename_i hc
            simp only [hc, if_false]
            split at h
            · rename_i hb
              simp only [hb, if_true]
              split at h
              · cases h
              · rename_i hd
                simp only [hd, if_false]
                have hsp1 := skipSpace_suffix rest
                cases hr : skipSpace rest with
                | nil => simp [hr] at h
                | cons c1 rest1 =>
                  rw [hr] at hsp1
                  have hl1 := hsp1.length_le
                  simp only [hr] at h ⊢
                  split at h
                  · rename_i hc1
                    simp only [hc1, if_true]
                    exact h
                  · rename_i hc1
                    simp only [hc1, if_false]
                    cases hm : parseElements fuel (depth + 1) (c1 :: rest1) with
                    | none => simp [hm] at h
                    | some p =>
                      obtain ⟨es, r'⟩ := p
                      simp only [hm, Option.map_some', Option.some.injEq, Prod.mk.injEq] at h
                      obtain ⟨rfl, rfl⟩ := h
                      rw [ihE _ _ _ _ hm g (by omega)]
                      rfl
            · rename_i hb
              simp only [hb, if_false]
              exact h
    · intro depth cs ms r h g hg
      have hlt := ((parse_consumes _).2.1 _ _ _ _ h).length_le
      simp only [List.length_cons] at hlt
      cases g with
      | zero => omega
      | succ g =>
        rw [parseMembers] at h ⊢
        have hsp := skipSpace_suffix cs
        cases hcs : skipSpace cs with
        | nil => simp [hcs] at h
        | cons q rest =>
          rw [hcs] at hsp
          have hl := hsp.length_le
          simp only [List.length_cons] at hl
          simp only [hcs] at h ⊢
          split at h
          · rename_i hq
            simp only [hq, if_true]
            cases hs : scanString rest with
            | none => simp [hs] at h
            | some p =>
              obtain ⟨k, rest1⟩ := p
              have hl1 := (scanStringFrom_suffix rest 0 k rest1 hs).length_le
              simp only [hs] at h ⊢
              have hsp1 := skipSpace_suffix rest1
              cases hr1 : skipSpace rest1 with
              | nil => simp [hr1] at h
              | cons colon rest2 =>
                rw [hr1] at hsp1
                have hl2 := hsp1.length_le
                simp only [List.length_cons] at hl2
                simp only [hr1] at h ⊢
                split at h
                · rename_i hcolon
                  simp only [hcolon, if_true]
                  cases hv : parseValue fuel depth rest2 with
                  | none => simp [hv] at h
                  | some p =>
                    obtain ⟨v, rest3⟩ := p
                    have hl3 := ((parse_consumes _).1 _ _ _ _ hv).1.length_le
                    simp only [hv] at h
                    have hsp3 := skipSpace_suffix rest3
                    cases hr3 : skipSpace rest3 with
                    | nil => simp [hr3] at h
                    | cons sep rest4 =>
                      rw [hr3] at hsp3
                      have hl4 := hsp3.length_le
                      simp only [List.length_cons] at hl4
                      simp only [hr3] at h
                      have hrl : r.length ≤ rest4.length := by
                        split at h
                        · cases hm : parseMembers fuel depth rest4 with
                          | none => simp [hm] at h
                          | some p =>
                            obtain ⟨ms', r'⟩ := p
                            simp only [hm, Option.map_some', Option.some.injEq,
                              Prod.mk.injEq] at h
                            obtain ⟨_, rfl⟩ := h
                            have := ((parse_consumes _).2.1 _ _ _ _ hm).length_le
                            simp only [List.length_cons] at this
                            omega
                        · split at h
                          · simp only [Option.some.injEq, Prod.mk.injEq] at h
                            obtain ⟨_, rfl⟩ := h
                            exact Nat.le_refl _
                          · cases h
                      rw [ihV _ _ _ _ hv g (by omega)]
                      simp only [hr3]
                      split at h
                      · rename_i hsep
                        simp only [hsep, if_true]
                        cases hm : parseMembers fuel depth rest4 with
                        | none => simp [hm] at h
                        | some p =>
                          obtain ⟨ms', r'⟩ := p
                          simp only [hm, Option.map_some', Option.some.injEq, Prod.mk.injEq] at h
                          obtain ⟨rfl, rfl⟩ := h
                          rw [ihM _ _ _ _ hm g (by omega)]
                          rfl
                      · rename_i hsep
                        simp only [hsep, if_false]
                        exact h
                · cases h
          · cases h
    · intro depth cs es r h g hg
      have hlt := ((parse_consumes _).2.2 _ _ _ _ h).2
      cases g with
      | zero => omega
      | succ g =>
        rw [parseElements] at h ⊢
        cases hv : parseValue fuel depth cs with
        | none => simp [hv] at h
        | some p =>
          obtain ⟨v, rest⟩ := p
          have hl1 := ((parse_consumes _).1 _ _ _ _ hv).2.1
          simp only [hv] at h
          have hsp := skipSpace_suffix rest
          cases hr : skipSpace rest with
          | nil => simp [hr] at h
          | cons sep rest1 =>
            rw [hr] at hsp
            have hl2 := hsp.length_le
            simp only [List.length_cons] at hl2
            simp only [hr] at h
            have hrl : r.length ≤ rest1.length := by
              split at h
              · cases hm : parseElements fuel depth rest1 with
                | none => simp [hm] at h
                | some p =>
                  obtain ⟨es', r'⟩ := p
                  simp only [hm, Option.map_some', Option.some.injEq, Prod.mk.injEq] at h
                  obtain ⟨_, rfl⟩ := h
                  exact ((parse_consumes _).2.2 _ _ _ _ hm).1.length_le
              · split at h
                · simp only [Option.some.injEq, Prod.mk.injEq] at h
                  obtain ⟨_, rfl⟩ := h
                  exact Nat.le_refl _
                · cases h
            rw [ihV _ _ _ _ hv g (by omega)]
            simp only [hr]
            split at h
            · rename_i hsep
              simp only [hsep, if_true]
              cases hm : parseElements fuel depth rest1 with
              | none => simp [hm] at h
              | some p =>
                obtain ⟨es', r'⟩ := p
                simp only [hm, Option.map_some', Option.some.injEq, Prod.mk.injEq] at h
                obtain ⟨rfl, rfl⟩ := h
                rw [ihE _ _ _ _ hm g (by omega)]
                rfl
            · rename_i hsep
              simp only [hsep, if_false]
              exact h

/-- The fuel given by `parseJSON` is enough: an input that some amount of fuel
reads as one value followed by white space only is read by `parseJSON` as that
value. -/
theorem parseJSON_fuel (input : String) (fuel : Nat) (v : JValue) (rest : List Char)
    (h : parseValue fuel 0 input.data = some (v, rest)) (hrest : skipSpace rest = []) :
    parseJSON input = some v := by
  have key : parseValue (input.data.length + 1) 0 input.data = some (v, rest) :=
    (parse_fuel fuel).1 0 input.data v rest h (input.data.length + 1) (by omega)
  simp only [parseJSON]
  rw [key]
  simp [hrest]

/-- A payload that `Unmarshal` accepts does not end in a double quote: it is an
object or `null`, possibly followed by white space. -/
theorem jsonUnmarshal_ok_last (b : Bytes) (o : Order) (h : (jsonUnmarshal b o).2 = none) :
    b.string.data.getLast? ≠ some '"' := by
  unfold jsonUnmarshal at h
  cases hp : parseJSON b.string with
  | none => simp [hp] at h
  | some v =>
    simp only [hp] at h
    have hv : v = .null ∨ ∃ ms, v = .object ms := by
      cases v with
      | null => exact Or.inl rfl
      | object ms => exact Or.inr ⟨ms, rfl⟩
      | bool _ => simp [decodeStruct] at h
      | number _ => simp [decodeStruct] at h
      | string _ => simp [decodeStruct] at h
      | array _ => simp [decodeStruct] at h
    unfold parseJSON at hp
    split at hp
    · cases hp
    · rename_i v' rest hq
      split at hp
      · rename_i hrest
        simp only [Option.some.injEq] at hp
        subst hp
        obtain ⟨c, hc, pre, hpre⟩ := ((parse_consumes _).1 _ _ _ _ hq).2.2 hv
        rw [← hpre, List.getLast?_append_of_ne_nil _ (List.cons_ne_nil c rest)]
        intro hlast
        have hmem : '"' ∈ c :: rest := List.mem_of_getLast?_eq_some hlast
        rcases List.mem_cons.1 hmem with hq' | hq'
        · exact hc hq'.symm
        · have := skipSpace_eq_nil rest hrest _ hq'
          simp [isSpace] at this
      · cases hp

/-- The key scan completes on every payload that `InitFromJSON` decodes without
error. -/
theorem initFromJSON_ok_scan (b : Bytes) (o : Order) (h : (o.InitFromJSON b).2 = none) :
    ∃ jsonKeys, getJsonKeysFormString b.string = .ok jsonKeys :=
  scanKeys_ok _ 0 [] "" false (jsonUnmarshal_ok_last b o h)

/-! ## Claims about the validator -/

set_option maxRecDepth 100000 in
/-- C2, counterexample. The payload with the extra key `promo_code` decodes
without error, and `CompareToJSON` of the decoded order on it returns false. -/
theorem initFromJSON_valid_not_matching :
    (Order.zero.InitFromJSON promoPayload).2 = none ∧
    (Order.zero.InitFromJSON promoPayload).1.CompareToJSON promoPayload = .ok false := by
  decide

/-- C2, amended. For every payload `b` that decodes without error, to the order
`o`: the key scans of `b` and of the encoding of `o` complete, `CompareToJSON` of
`o` on `b` returns a Boolean, and it returns true exactly when every key name
scanned in `b` has the same count among the keys of the encoding of `o`. -/
theorem initFromJSON_compare_iff (b : Bytes) (o : Order)
    (hdec : Order.zero.InitFromJSON b = (o, none)) :
    ∃ E orderKeys jsonKeys, jsonMarshal o = .ok E ∧ getJsonKeysFormString E = .ok orderKeys ∧
      getJsonKeysFormString b.string = .ok jsonKeys ∧
      (o.CompareToJSON b = .ok true ∨ o.CompareToJSON b = .ok false) ∧
      (o.CompareToJSON b = .ok true ↔ ∀ k ∈ jsonKeys,
        GoMap.get? (countStringsInSlice orderKeys) k
          = GoMap.get? (countStringsInSlice jsonKeys) k) := by
  obtain ⟨jsonKeys, hscan⟩ := initFromJSON_ok_scan b Order.zero (by rw [hdec])
  obtain ⟨E, orderKeys, hE, hkeys, hcmp⟩ := compareToJSON_counts o b jsonKeys hscan
  exact ⟨E, orderKeys, jsonKeys, hE, hkeys, hscan, ok_decide_iff _ _ hcmp⟩

set_option maxRecDepth 100000 in
/-- Witness of C2, amended: the payload with an identifier and an empty item list
decodes, and the decoded order matches it. -/
theorem initFromJSON_compare_iff_witness :
    Order.zero.InitFromJSON smallPayload
        = ({ Order.zero with OrderUid := "A1", Items := some [] }, none) ∧
    (∃ E orderKeys jsonKeys,
      jsonMarshal { Order.zero with OrderUid := "A1", Items := some [] } = .ok E ∧
      getJsonKeysFormString E = .ok orderKeys ∧
      getJsonKeysFormString smallPayload.string = .ok jsonKeys ∧
      (Order.CompareToJSON { Order.zero with OrderUid := "A1", Items := some [] } smallPayload
          = .ok true ∨
        Order.CompareToJSON { Order.zero with OrderUid := "A1", Items := some [] } smallPayload
          = .ok false) ∧
      (Order.CompareToJSON { Order.zero with OrderUid := "A1", Items := some [] } smallPayload
          = .ok true ↔ ∀ k ∈ jsonKeys,
        GoMap.get? (countStringsInSlice orderKeys) k
          = GoMap.get? (countStringsInSlice jsonKeys) k)) ∧
    Order.CompareToJSON { Order.zero with OrderUid := "A1", Items := some [] } smallPayload
      = .ok true :=
  ⟨by decide, initFromJSON_compare_iff smallPayload _ (by decide), by decide⟩

set_option maxRecDepth 100000 in
/-- The scan finds a key only when the colon follows its closing quote directly.
With a blank in between, the key `promo_code` is not found, and the payload
decodes and compares true. -/
theorem compareToJSON_unscanned_key :
    (Order.zero.InitFromJSON spacedPromoPayload).2 = none ∧
    getJsonKeysFormString spacedPromoPayload.string = .ok ["order_uid"] ∧
    (Order.zero.InitFromJSON spacedPromoPayload).1.CompareToJSON spacedPromoPayload
      = .ok true := by
  decide

set_option maxRecDepth 100000 in
/-- C3, failing input. The payload that carries only `order_uid` decodes without
error; the encoded order has the key `track_number`, the payload has not; yet
`CompareToJSON` returns true. -/
theorem compareToJSON_misses_absent_keys :
    (Order.zero.InitFromJSON uidPayload).2 = none ∧
    getJsonKeysFormString uidPayload.string = .ok ["order_uid"] ∧
    (∃ E orderKeys, jsonMarshal (Order.zero.InitFromJSON uidPayload).1 = .ok E ∧
      getJsonKeysFormString E = .ok orderKeys ∧ "track_number" ∈ orderKeys) ∧
    (Order.zero.InitFromJSON uidPayload).1.CompareToJSON uidPayload = .ok true := by
  refine ⟨by decide, by decide, ?_, by decide⟩
  obtain ⟨E, orderKeys, hE, hkeys⟩ :=
    getJsonKeysFormString_marshal (Order.zero.InitFromJSON uidPayload).1
  refine ⟨E, orderKeys, hE, hkeys, ?_⟩
  have h1 : jsonMarshal (Order.zero.InitFromJSON uidPayload).1
      = .ok (match jsonMarshal (Order.zero.InitFromJSON uidPayload).1 with
        | .ok e => e
        | .error _ => "") := rfl
  rw [h1] at hE
  cases hE
  have h2 : "track_number" ∈ (match getJsonKeysFormString (match
      jsonMarshal (Order.zero.InitFromJSON uidPayload).1 with
        | .ok e => e
        | .error _ => "") with
      | .ok ks => ks
      | .error _ => []) := by decide
  rw [hkeys] at h2
  exact h2

set_option maxRecDepth 100000 in
/-- C4, failing input. On the three runes of `"a"` the scan reads index 3 of a
slice of length 3 and panics, and so does the subscription handler when a
message with that body arrives, whatever the state. -/
theorem getJsonKeysFormString_out_of_range :
    getJsonKeysFormString "\"a\"" = .error (.indexOutOfRange 3 3) ∧
    ∀ (σ : Type) (p : Program σ),
      (p.handleMsg quotedPayload).panic = some (.indexOutOfRange 3 3) := by
  refine ⟨by decide, ?_⟩
  intro σ p
  have h : (Order.zero.InitFromJSON quotedPayload).1.CompareToJSON quotedPayload
      = .error (.indexOutOfRange 3 3) := by decide
  simp only [Program.handleMsg, h]

/-! ## Claims about the cache -/

/-- Reading the cache: nothing for a nil map, else what the map holds. -/
theorem Cache.GetOrder_some (orders : GoMap Bytes) (uid : String) :
    Cache.GetOrder { Orders := some orders } uid = (GoMap.get? orders uid).getD none := by
  simp only [Cache.GetOrder]
  cases GoMap.get? orders uid <;> rfl

/-- C8, counterexample. `NewCache` on a database that cannot be reached returns a
cache whose `Orders` map is nil; on that cache `AddOrder` for an identifier,
which is absent, panics instead of returning nil. -/
theorem cache_addOrder_nil_map :
    NewCache offlineDb = (some { Orders := none }, none) ∧
    Cache.AddOrder { Orders := none } "A1" smallPayload = .error .nilMapAssign := by
  decide

/-- C8, amended. On a cache whose `Orders` map is initialised: when `uid` is
present `AddOrder` returns an error and the same cache; when `uid` is absent it
returns nil and a cache in which `GetOrder uid` is `newItem`, the map reads
`newItem` at `uid`, and every other identifier reads as before. -/
theorem cache_addOrder_spec (c : Cache) (orders : GoMap Bytes) (uid : String) (newItem : Bytes)
    (hinit : c.Orders = some orders) :
    (GoMap.get? orders uid ≠ none →
      ∃ err, c.AddOrder uid newItem = .ok (c, some err)) ∧
    (GoMap.get? orders uid = none →
      ∃ c' orders', c.AddOrder uid newItem = .ok (c', none) ∧ c'.Orders = some orders' ∧
        c'.GetOrder uid = newItem ∧ GoMap.get? orders' uid = some newItem ∧
        ∀ other, other ≠ uid → GoMap.get? orders' other = GoMap.get? orders other) := by
  obtain ⟨o⟩ := c
  simp only at hinit
  subst hinit
  constructor
  · intro h
    cases hg : GoMap.get? orders uid with
    | none => exact absurd hg h
    | some v =>
      exact ⟨"Element " ++ uid ++ " already exists in cache", by simp [Cache.AddOrder, hg]⟩
  · intro h
    refine ⟨_, GoMap.set orders uid newItem, by simp [Cache.AddOrder, h], rfl, ?_, ?_, ?_⟩
    · rw [Cache.GetOrder_some, GoMap.get?_set]; simp
    · rw [GoMap.get?_set]; simp
    · intro other hne
      have hne' : ¬ uid = other := fun e => hne e.symm
      rw [GoMap.get?_set]
      simp [hne']

/-- Witness of C8, amended: a cache that holds `A1`, asked to add `A1` and `B2`. -/
theorem cache_addOrder_spec_witness :
    (Cache.mk (some [("A1", smallPayload)])).Orders = some [("A1", smallPayload)] ∧
    GoMap.get? [("A1", smallPayload)] "A1" ≠ none ∧
    GoMap.get? [("A1", smallPayload)] "B2" = none ∧
    (∃ err, (Cache.mk (some [("A1", smallPayload)])).AddOrder "A1" promoPayload
      = .ok (Cache.mk (some [("A1", smallPayload)]), some err)) ∧
    (∃ c' orders', (Cache.mk (some [("A1", smallPayload)])).AddOrder "B2" promoPayload
        = .ok (c', none) ∧ c'.Orders = some orders' ∧
      c'.GetOrder "B2" = promoPayload ∧ GoMap.get? orders' "B2" = some promoPayload ∧
      ∀ other, other ≠ "B2" →
        GoMap.get? orders' other = GoMap.get? [("A1", smallPayload)] other) :=
  ⟨rfl, by decide, by decide,
    (cache_addOrder_spec (Cache.mk (some [("A1", smallPayload)])) [("A1", smallPayload)] "A1"
      promoPayload rfl).1 (by decide),
    (cache_addOrder_spec (Cache.mk (some [("A1", smallPayload)])) [("A1", smallPayload)] "B2"
      promoPayload rfl).2 (by decide)⟩

/-- C9, failing input. With a database that cannot be reached, `GetAllOrders`
fails with an error, yet `RestoreFromDb` returns nil and leaves the `Orders` map
nil, and `NewCache` returns that cache together with a nil error. -/
theorem restoreFromDb_swallows_error :
    offlineDb.GetAllOrders
      = (none, some "dial tcp 127.0.0.1:5432: connect: connection refused") ∧
    Cache.RestoreFromDb { Orders := some [] } offlineDb = ({ Orders := none }, none) ∧
    NewCache offlineDb = (some { Orders := none }, none) := by
  decide

/-- The error result of `RestoreFromDb` is nil whatever the database answers, and
so is that of `NewCache`, which always returns a cache. -/
theorem restoreFromDb_never_fails {σ : Type} (c : Cache) (db : Db σ) :
    (c.RestoreFromDb db).2 = none ∧ (NewCache db).2 = none ∧ (NewCache db).1 ≠ none := by
  simp [Cache.RestoreFromDb, NewCache]

/-- When `GetAllOrders` succeeds, `RestoreFromDb` returns nil and the `Orders` map
becomes the map returned by the store, whatever the cache held before. -/
theorem restoreFromDb_success {σ : Type} (c : Cache) (db : Db σ) (orders : GoMap Bytes)
    (h : db.GetAllOrders = (some orders, none)) :
    c.RestoreFromDb db = ({ Orders := some orders }, none) := by
  simp [Cache.RestoreFromDb, h]

/-! ## Claims about the handlers -/

/-- The subscription handler on a message that decodes to `o` without error and
for which `CompareToJSON` returns true: both `AddOrder` calls are made. -/
theorem handleMsg_accepted {σ : Type} (p : Program σ) (msgData : Bytes) (o : Order)
    (hdec : Order.zero.InitFromJSON msgData = (o, none))
    (hcmp : o.CompareToJSON msgData = .ok true) :
    p.handleMsg msgData =
      match p.cache.AddOrder o.OrderUid msgData with
      | .error pn =>
        { program := { p with db := (p.db.AddOrder o.OrderUid msgData).1 },
          calls := [.dbAddOrder o.OrderUid msgData, .cacheAddOrder o.OrderUid msgData],
          panic := some pn }
      | .ok (cache, _) =>
        { program := { db := (p.db.AddOrder o.OrderUid msgData).1, cache := cache },
          calls := [.dbAddOrder o.OrderUid msgData, .cacheAddOrder o.OrderUid msgData],
          panic := none } := by
  unfold Program.handleMsg
  simp only [hdec, hcmp, and_self, if_true]

set_option maxRecDepth 100000 in
/-- C5, failing input. The database cannot be reached and the cache is empty. The
message decodes and validates, `Db.AddOrder` fails, and the handler still adds the
order to the cache, which then holds an entry that the store does not. -/
theorem handleMsg_caches_after_store_error :
    (Order.zero.InitFromJSON smallPayload).2 = none ∧
    (Order.zero.InitFromJSON smallPayload).1.CompareToJSON smallPayload = .ok true ∧
    (offlineDb.AddOrder (Order.zero.InitFromJSON smallPayload).1.OrderUid smallPayload).2
      ≠ none ∧
    ((Program.mk offlineDb { Orders := some [] }).handleMsg smallPayload).program.cache
      = { Orders := some [("A1", smallPayload)] } := by
  decide

/-- What the handler does to the cache on a message that decodes and validates,
whatever `Db.AddOrder` returns: a cache that holds the identifier stays as it
is, and a cache with an initialised map that does not hold it gains the entry. -/
theorem handleMsg_accepted_cache {σ : Type} (p : Program σ) (msgData : Bytes)
    (o : Order) (orders : GoMap Bytes)
    (hdec : Order.zero.InitFromJSON msgData = (o, none))
    (hcmp : o.CompareToJSON msgData = .ok true)
    (hinit : p.cache.Orders = some orders) :
    (GoMap.get? orders o.OrderUid ≠ none →
      (p.handleMsg msgData).program.cache = p.cache) ∧
    (GoMap.get? orders o.OrderUid = none →
      (p.handleMsg msgData).program.cache
        = { Orders := some (GoMap.set orders o.OrderUid msgData) }) := by
  rw [handleMsg_accepted p msgData o hdec hcmp]
  obtain ⟨db, c⟩ := p
  obtain ⟨m⟩ := c
  simp only at hinit
  subst hinit
  constructor
  · intro hheld
    cases hg : GoMap.get? orders o.OrderUid with
    | none => exact absurd hg hheld
    | some v => simp [Cache.AddOrder, hg]
  · intro habsent
    simp [Cache.AddOrder, habsent]

/-- C7. A message whose decoding fails, or for which `CompareToJSON` returns false,
is dropped: the handler makes no call to `Db.AddOrder` or `Cache.AddOrder` and
leaves the program state, store and cache, as it was. If the handler panics
on such a message, the panic is that of the key scan of the message body. -/
theorem handleMsg_drops {σ : Type} (p : Program σ) (msgData : Bytes)
    (h : (Order.zero.InitFromJSON msgData).2 ≠ none ∨
      (Order.zero.InitFromJSON msgData).1.CompareToJSON msgData = .ok false) :
    (p.handleMsg msgData).calls = [] ∧ (p.handleMsg msgData).program = p ∧
    ∀ pn, (p.handleMsg msgData).panic = some pn →
      getJsonKeysFormString msgData.string = .error pn := by
  unfold Program.handleMsg
  generalize Order.zero.InitFromJSON msgData = decoded at h ⊢
  obtain ⟨o, err⟩ := decoded
  simp only at h ⊢
  have herr := compareToJSON_error o msgData
  generalize o.CompareToJSON msgData = result at h herr ⊢
  cases result with
  | error pn =>
    refine ⟨rfl, rfl, ?_⟩
    intro pn' hpn
    simp only [Option.some.injEq] at hpn
    subst hpn
    exact herr _ rfl
  | ok same =>
    have hcond : ¬ (same = true ∧ err = none) := by
      rintro ⟨hs, he⟩
      rcases h with h | h
      · exact h he
      · simp only [Except.ok.injEq] at h
        rw [h] at hs
        cases hs
    simp [hcond]

set_option maxRecDepth 100000 in
/-- Witness of C7: the message with the extra key `promo_code`, delivered to an
empty store and cache. -/
theorem handleMsg_drops_witness :
    (Order.zero.InitFromJSON promoPayload).1.CompareToJSON promoPayload = .ok false ∧
    ((Program.mk emptyDb { Orders := some [] }).handleMsg promoPayload).calls = [] ∧
    ((Program.mk emptyDb { Orders := some [] }).handleMsg promoPayload).program
      = Program.mk emptyDb { Orders := some [] } ∧
    ∀ pn, ((Program.mk emptyDb { Orders := some [] }).handleMsg promoPayload).panic = some pn →
      getJsonKeysFormString promoPayload.string = .error pn :=
  ⟨by decide,
    handleMsg_drops (Program.mk emptyDb { Orders := some [] }) promoPayload (Or.inr (by decide))⟩


/-- Reading the rows of the insert-only table never fails. -/
theorem scanOrderRows_ok (rows : GoMap String) :
    ∀ orders : GoMap Bytes, ∃ orders',
      scanOrderRows (rows.map fun r => .ok (r.1, some r.2)) orders = (some orders', none) := by
  induction rows with
  | nil => intro orders; exact ⟨orders, rfl⟩
  | cons r rest ih =>
    intro orders
    obtain ⟨uid, data⟩ := r
    simpa [scanOrderRows] using ih (GoMap.set orders uid (some data))

/-- On the insert-only table, `NewCache` returns a cache with an initialised map. -/
theorem newCache_insertOnlyStore (rows : GoMap String) :
    ∃ orders, NewCache (Db.mk insertOnlyStore rows) = (some { Orders := some orders }, none) := by
  obtain ⟨orders, h⟩ := scanOrderRows_ok rows []
  refine ⟨orders, ?_⟩
  have hall : (Db.mk insertOnlyStore rows).GetAllOrders = (some orders, none) := by
    simpa [Db.GetAllOrders, insertOnlyStore] using h
  simp [NewCache, Cache.RestoreFromDb, hall]

/-- The handler keeps an initialised cache map initialised. -/
theorem handleMsg_keeps_map {σ : Type} (p : Program σ) (msgData : Bytes)
    (h : p.cache.Orders ≠ none) : (p.handleMsg msgData).program.cache.Orders ≠ none := by
  unfold Program.handleMsg
  generalize Order.zero.InitFromJSON msgData = decoded
  obtain ⟨o, err⟩ := decoded
  simp only
  generalize o.CompareToJSON msgData = result
  cases result with
  | error pn => exact h
  | ok same =>
    by_cases hcond : same = true ∧ err = none
    · simp only [hcond, and_self, if_true]
      cases hc : p.cache.Orders with
      | none => exact absurd hc h
      | some orders =>
        cases hg : GoMap.get? orders o.OrderUid with
        | none => simp [Cache.AddOrder, hc, hg]
        | some v => simp [Cache.AddOrder, hc, hg]
    · simp only [hcond, if_false]
      exact h

/-- A key that a map does not hold is not among its keys. -/
theorem GoMap.not_mem_keys {ν : Type} (m : GoMap ν) (k : String) (h : GoMap.get? m k = none) :
    k ∉ m.map Prod.fst := by
  induction m with
  | nil => simp
  | cons hd tl ih =>
    obtain ⟨a, b⟩ := hd
    simp only [GoMap.get?] at h
    split at h
    · cases h
    · rename_i hne
      simp only [List.map_cons, List.mem_cons, not_or]
      exact ⟨fun e => hne e.symm, ih h⟩

/-- After writing a new key, the key occurs once among the keys of the map. -/
theorem GoMap.count_key_set {ν : Type} (m : GoMap ν) (k : String) (v : ν)
    (h : GoMap.get? m k = none) : ((GoMap.set m k v).map Prod.fst).count k = 1 := by
  have hk := GoMap.not_mem_keys m k h
  rw [GoMap.keys_set, if_neg hk, List.count_append, List.count_eq_zero_of_not_mem hk]
  simp

set_option maxRecDepth 100000 in
/-- A cache whose `Orders` map is nil, as `NewCache` leaves it when `GetAllOrders`
fails: on an accepted message the handler writes the store, then panics in
`Cache.AddOrder`. -/
theorem handleMsg_nil_cache_panics :
    (Order.zero.InitFromJSON smallPayload).2 = none ∧
    (Order.zero.InitFromJSON smallPayload).1.CompareToJSON smallPayload = .ok true ∧
    GoMap.get? emptyDb.dataBase "A1" = none ∧
    Cache.GetOrder { Orders := none } "A1" = none ∧
    ((Program.mk emptyDb { Orders := none }).handleMsg smallPayload).panic
      = some .nilMapAssign ∧
    ((Program.mk emptyDb { Orders := none }).handleMsg smallPayload).program.db.dataBase
      = [("A1", smallPayload.string)] ∧
    ((Program.mk emptyDb { Orders := none }).handleMsg smallPayload).program.cache.GetOrder "A1"
      = none := by
  decide

/-- C6. The store is the insert-only table `rows` and the cache holds the map
`orders`; neither holds the identifier of an accepted message. After
the first delivery the handler has returned, the table maps the identifier to the
message text and the cache maps it to the message bytes, each in one entry. The
second delivery returns too and leaves the table and the cache as the first
delivery left them. -/
theorem handleMsg_twice (rows : GoMap String) (orders : GoMap Bytes) (msgData : Bytes)
    (o : Order)
    (hdec : Order.zero.InitFromJSON msgData = (o, none))
    (hcmp : o.CompareToJSON msgData = .ok true)
    (hstore : GoMap.get? rows o.OrderUid = none)
    (hcache : GoMap.get? orders o.OrderUid = none) :
    ∃ first second : HandlerRun (GoMap String),
      first = (Program.mk (Db.mk insertOnlyStore rows)
        { Orders := some orders }).handleMsg msgData ∧
      second = first.program.handleMsg msgData ∧
      first.panic = none ∧
      GoMap.get? first.program.db.dataBase o.OrderUid = some msgData.string ∧
      (first.program.db.dataBase.map Prod.fst).count o.OrderUid = 1 ∧
      first.program.cache.Orders = some (GoMap.set orders o.OrderUid msgData) ∧
      first.program.cache.GetOrder o.OrderUid = msgData ∧
      ((GoMap.set orders o.OrderUid msgData).map Prod.fst).count o.OrderUid = 1 ∧
      second.panic = none ∧
      second.program.db.dataBase = first.program.db.dataBase ∧
      second.program.cache = first.program.cache := by
  have hfirst :
      (Program.mk (Db.mk insertOnlyStore rows) { Orders := some orders }).handleMsg msgData
      = { program := Program.mk (Db.mk insertOnlyStore (GoMap.set rows o.OrderUid msgData.string))
            { Orders := some (GoMap.set orders o.OrderUid msgData) },
          calls := [.dbAddOrder o.OrderUid msgData, .cacheAddOrder o.OrderUid msgData],
          panic := none } := by
    rw [handleMsg_accepted _ msgData o hdec hcmp]
    simp [Cache.AddOrder, Db.AddOrder, insertOnlyStore, hstore, hcache]
  have hsecond : (Program.mk (Db.mk insertOnlyStore (GoMap.set rows o.OrderUid msgData.string))
        { Orders := some (GoMap.set orders o.OrderUid msgData) }).handleMsg msgData
      = { program := Program.mk (Db.mk insertOnlyStore (GoMap.set rows o.OrderUid msgData.string))
            { Orders := some (GoMap.set orders o.OrderUid msgData) },
          calls := [.dbAddOrder o.OrderUid msgData, .cacheAddOrder o.OrderUid msgData],
          panic := none } := by
    rw [handleMsg_accepted _ msgData o hdec hcmp]
    simp [Cache.AddOrder, Db.AddOrder, insertOnlyStore, GoMap.get?_set]
  refine ⟨_, _, hfirst.symm, hsecond.symm, rfl, ?_, GoMap.count_key_set rows _ _ hstore, rfl, ?_,
    GoMap.count_key_set orders _ _ hcache, rfl, rfl, rfl⟩
  · show GoMap.get? (GoMap.set rows o.OrderUid msgData.string) o.OrderUid = _
    rw [GoMap.get?_set]; simp
  · show Cache.GetOrder { Orders := some (GoMap.set orders o.OrderUid msgData) } o.OrderUid = _
    rw [Cache.GetOrder_some, GoMap.get?_set]; simp

set_option maxRecDepth 100000 in
/-- Witness of C6: the message for `A1` delivered twice to an empty table
and an empty cache. -/
theorem handleMsg_twice_witness :
    Order.zero.InitFromJSON smallPayload
        = ({ Order.zero with OrderUid := "A1", Items := some [] }, none) ∧
    ∃ first second : HandlerRun (GoMap String),
      first = (Program.mk (Db.mk insertOnlyStore [])
        { Orders := some [] }).handleMsg smallPayload ∧
      second = first.program.handleMsg smallPayload ∧
      first.panic = none ∧
      GoMap.get? first.program.db.dataBase "A1" = some smallPayload.string ∧
      (first.program.db.dataBase.map Prod.fst).count "A1" = 1 ∧
      first.program.cache.Orders = some (GoMap.set [] "A1" smallPayload) ∧
      first.program.cache.GetOrder "A1" = smallPayload ∧
      ((GoMap.set ([] : GoMap Bytes) "A1" smallPayload).map Prod.fst).count "A1" = 1 ∧
      second.panic = none ∧
      second.program.db.dataBase = first.program.db.dataBase ∧
      second.program.cache = first.program.cache :=
  ⟨by decide,
    handleMsg_twice [] [] smallPayload { Order.zero with OrderUid := "A1", Items := some [] }
      (by decide) (by decide) (by decide) (by decide)⟩

set_option maxRecDepth 100000 in
/-- An entry whose value is the nil slice is a miss for the handler: `GetOrder`
returns nil for it, and the store is consulted. -/
theorem handleGet_nil_entry_is_miss :
    GoMap.get? [("A1", (none : Bytes))] "A1" = some none ∧
    ((OrdersServer.mk { Orders := some [("A1", none)] } offlineDb).handleGet "A1").calls
      = [.dbGetOrder "A1"] := by
  decide

/-- C10. When the cache holds bytes for `uid`, the response is those bytes and no
store call is made. On a miss (a nil map, no entry for `uid`, or an entry that is
the nil slice) the response is the bytes returned by `Db.GetOrder uid`, the one
store call made. In every case the cache and the database are the same after
the lookup as before. -/
theorem handleGet_spec {σ : Type} (s : OrdersServer σ) (uid : String) :
    (∀ orders v, s.cache.Orders = some orders → GoMap.get? orders uid = some (some v) →
      (s.handleGet uid).response = some v ∧ (s.handleGet uid).calls = []) ∧
    ((∀ orders, s.cache.Orders = some orders →
        GoMap.get? orders uid = none ∨ GoMap.get? orders uid = some none) →
      (s.handleGet uid).response = (s.db.GetOrder uid).1 ∧
      (s.handleGet uid).calls = [.dbGetOrder uid]) ∧
    (s.handleGet uid).server.cache = s.cache ∧
    (s.handleGet uid).server.db.dataBase = s.db.dataBase := by
  refine ⟨?_, ?_, ?_, ?_⟩
  · intro orders v hinit hget
    have : s.cache.GetOrder uid = some v := by simp [Cache.GetOrder, hinit, hget]
    simp [OrdersServer.handleGet, this]
  · intro hmiss
    have : s.cache.GetOrder uid = none := by
      cases hinit : s.cache.Orders with
      | none => simp [Cache.GetOrder, hinit]
      | some orders =>
        rcases hmiss orders hinit with h | h <;> simp [Cache.GetOrder, hinit, h]
    simp [OrdersServer.handleGet, this]
  · simp only [OrdersServer.handleGet]; split <;> rfl
  · simp only [OrdersServer.handleGet]; split <;> rfl

set_option maxRecDepth 100000 in
/-- Witness of C10: a hit on `A1` and a miss on `B2`. -/
theorem handleGet_spec_witness :
    ((OrdersServer.mk { Orders := some [("A1", smallPayload)] } emptyDb).handleGet "A1").response
      = smallPayload ∧
    ((OrdersServer.mk { Orders := some [("A1", smallPayload)] } emptyDb).handleGet "A1").calls
      = [] ∧
    ((OrdersServer.mk { Orders := some [("A1", smallPayload)] } emptyDb).handleGet "B2").response
      = (emptyDb.GetOrder "B2").1 ∧
    ((OrdersServer.mk { Orders := some [("A1", smallPayload)] } emptyDb).handleGet "B2").calls
      = [.dbGetOrder "B2"] :=
  ⟨((handleGet_spec (OrdersServer.mk { Orders := some [("A1", smallPayload)] } emptyDb) "A1").1
      [("A1", smallPayload)] smallText rfl (by decide)).1,
    ((handleGet_spec (OrdersServer.mk { Orders := some [("A1", smallPayload)] } emptyDb) "A1").1
      [("A1", smallPayload)] smallText rfl (by decide)).2,
    ((handleGet_spec (OrdersServer.mk { Orders := some [("A1", smallPayload)] } emptyDb) "B2").2.1
      (fun orders h => by cases h; exact Or.inl (by decide))).1,
    ((handleGet_spec (OrdersServer.mk { Orders := some [("A1", smallPayload)] } emptyDb) "B2").2.1
      (fun orders h => by cases h; exact Or.inl (by decide))).2⟩

end OrderService
